import Mathlib

/-!
Verification development for the `n8n_nodes_toPDF_unlimited` node
(`src/ConvertToPdf.node.ts`).  The JSON-like payload trees, the text
sanitizer, the field filter, the content-type routing, the structured PDF
layout engine and the template interpolator are embedded shallowly; machine
reals that only carry page coordinates are modelled as rationals, fallible
JavaScript operations (property access on `null`/`undefined`, calling string
methods on non-strings) are modelled in `Except`.
-/

set_option maxRecDepth 20000

namespace ToPdf

/-- Payload tree: the JSON-like values the node renders.  The order of an
object's key/value list is the property order of the parsed JavaScript
object (`Object.keys` order), which the spec treats as insertion order.
Numbers are modelled as integers; no claim depends on float formatting. -/
inductive Json where
  | null : Json
  | bool (b : Bool) : Json
  | num (n : Int) : Json
  | str (s : String) : Json
  | arr (xs : List Json) : Json
  | obj (kvs : List (String × Json)) : Json
deriving Repr

mutual

/-- Weight of a payload tree, used as a termination measure for the mutual
renderers (scalar leaves weigh 1 regardless of their magnitude). -/
def jweight : Json → Nat
  | .arr xs => 1 + jweightL xs
  | .obj kvs => 1 + jweightKV kvs
  | _ => 1

/-- Weight of a list of payload trees. -/
def jweightL : List Json → Nat
  | [] => 1
  | x :: xs => 1 + jweight x + jweightL xs

/-- Weight of an object's key/value list. -/
def jweightKV : List (String × Json) → Nat
  | [] => 1
  | (_, v) :: kvs => 1 + jweight v + jweightKV kvs

end

/-- JavaScript truthiness of a payload value. -/
def jsTruthy : Json → Bool
  | .null => false
  | .bool b => b
  | .num n => n != 0
  | .str s => s != ""
  | _ => true

/-- True for values with JavaScript `typeof x === "object" && x !== null`,
i.e. arrays and plain objects (the values the renderer treats as complex). -/
def jsonIsComplex : Json → Bool
  | .arr _ => true
  | .obj _ => true
  | _ => false

/-- True for scalar leaves (null, booleans, numbers, strings). -/
def jsonIsScalar : Json → Bool
  | .arr _ => false
  | .obj _ => false
  | _ => true

/-- Decimal value of a digit string. -/
def digitsToNat (l : List Char) : Nat :=
  l.foldl (fun a c => a * 10 + (c.toNat - 48)) 0

/-- Canonical array-index reading of a property name, as JavaScript array
indexing does: all digits, no leading zero except the string `0` itself. -/
def parseIndex (k : String) : Option Nat :=
  match k.data with
  | [] => none
  | c :: cs =>
    if (c :: cs).all Char.isDigit then
      if c = Char.ofNat 48 && cs ≠ [] then none
      else some (digitsToNat (c :: cs))
    else none

/-- Property read `j[k]` on a non-null value, at the payload level: own keys
of objects, canonical indices and `length` of arrays and strings.  `none` is
JavaScript `undefined`. -/
def jsGet : Json → String → Option Json
  | .obj kvs, k => (kvs.find? (fun p => p.1 = k)).map (fun p => p.2)
  | .arr xs, k =>
    if k = "length" then some (.num xs.length)
    else match parseIndex k with
      | some i => xs.get? i
      | none => none
  | .str s, k =>
    if k = "length" then some (.num s.length)
    else match parseIndex k with
      | some i => (s.data.get? i).map (fun c => .str (String.singleton c))
      | none => none
  | _, _ => none

/-- Property read that throws a `TypeError` when the base is `null`
(modelling `null.k` in JavaScript).  `undefined` bases are read through
`jsGetUE`. -/
def jsGetE : Json → String → Except String (Option Json)
  | .null, k => .error ("TypeError: cannot read properties of null, reading " ++ k)
  | j, k => .ok (jsGet j k)

/-- Property read on an optional value: reading a property of `undefined`
(or of `null`) throws. -/
def jsGetUE : Option Json → String → Except String (Option Json)
  | none, k => .error ("TypeError: cannot read properties of undefined, reading " ++ k)
  | some j, k => jsGetE j k

/-- Truthiness of a possibly-`undefined` value. -/
def jsTruthyO : Option Json → Bool
  | none => false
  | some j => jsTruthy j

/-- JavaScript `Object.keys`: an object's own keys in property order, an
array's canonical index strings, nothing for other values. -/
def jsKeys : Json → List String
  | .obj kvs => kvs.map (fun p => p.1)
  | .arr xs => (List.range xs.length).map (fun i => toString i)
  | _ => []

/-! ### Text sanitizer (`sanitizeForPdf`, ConvertToPdf.node.ts:1768-1789)

The source is a chain of global regex replacements followed by a filter to
the Latin-1 range and a `trim()`.  Every pattern is a single-character class,
so each pass is a character-wise `List.flatMap`. -/

/-- Removal pass for one codepoint range (the emoji-range `replace`s). -/
def rangeRemovePass (lo hi : Nat) (c : Char) : List Char :=
  if lo ≤ c.toNat && c.toNat ≤ hi then [] else [c]

/-- Replacement pass mapping each character of `cs` to the string `r`. -/
def charMapPass (cs : List Char) (r : List Char) (c : Char) : List Char :=
  if c ∈ cs then r else [c]

/-- Final filter of `sanitizeForPdf`: keep only `\x00`-`\xFF`
(the `[^\x00-\xFF]` removal; removing both UTF-16 surrogates of an astral
codepoint removes the codepoint, so the pass is character-wise here). -/
def keepLatin1 (c : Char) : List Char :=
  if c.toNat ≤ 0xFF then [c] else []

/-- Characters removed by JavaScript `String.prototype.trim` (ECMAScript
WhiteSpace and LineTerminator). -/
def jsWhitespace (c : Char) : Bool :=
  c.toNat ∈ [0x9, 0xA, 0xB, 0xC, 0xD, 0x20, 0xA0, 0x1680, 0x2000, 0x2001,
    0x2002, 0x2003, 0x2004, 0x2005, 0x2006, 0x2007, 0x2008, 0x2009, 0x200A,
    0x2028, 0x2029, 0x202F, 0x205F, 0x3000, 0xFEFF]

/-- JavaScript `trim()` on a character list. -/
def jsTrimList (l : List Char) : List Char :=
  ((l.dropWhile jsWhitespace).reverse.dropWhile jsWhitespace).reverse

/-- JavaScript `trim()` on a string. -/
def jsTrim (s : String) : String :=
  String.mk (jsTrimList s.data)

/-- Prefix test on strings through their character lists. -/
def strStartsWith (s pre : String) : Bool :=
  pre.data.isPrefixOf s.data

/-- Suffix test on strings through their character lists. -/
def strEndsWith (s suf : String) : Bool :=
  suf.data.isSuffixOf s.data

/-- JavaScript `toLowerCase` (ASCII range, the one the field names and
tag markers use). -/
def strToLower (s : String) : String :=
  String.mk (s.data.map Char.toLower)


/-- Body of `sanitizeForPdf` before the final `trim()`: the five
emoji-range removals, the punctuation replacements, and the Latin-1
filter, in source order. -/
def sanitizeBody (l : List Char) : List Char :=
  ((((((((((((l.flatMap (rangeRemovePass 0x1F300 0x1F9FF)).flatMap
    (rangeRemovePass 0x2600 0x26FF)).flatMap
    (rangeRemovePass 0x2700 0x27BF)).flatMap
    (rangeRemovePass 0xFE00 0xFE0F)).flatMap
    (rangeRemovePass 0x1F000 0x1FFFF)).flatMap
    (charMapPass ['‘', '’'] [Char.ofNat 39])).flatMap
    (charMapPass ['“', '”'] [Char.ofNat 34])).flatMap
    (charMapPass ['…'] ['.', '.', '.'])).flatMap
    (charMapPass ['–'] ['-'])).flatMap
    (charMapPass ['—'] ['-', '-'])).flatMap
    (charMapPass [Char.ofNat 0xA0] [Char.ofNat 0x20])).flatMap
    keepLatin1)

/-- The text sanitizer (`sanitizeForPdf`).  `if (!text) return ''` only
fires on the empty string at the payload level. -/
def sanitizeForPdf (s : String) : String :=
  if s = "" then "" else String.mk (jsTrimList (sanitizeBody s.data))

/-! ### Label and value formatting (ConvertToPdf.node.ts:978-1018, 1792-1809) -/

/-- Spacing pass of `formatLabel`: the global replace
`([a-z])([A-Z]) -> $1 $2` (consuming two characters per match never skips a
later match, because a match cannot begin with an upper-case letter). -/
def camelSpace : List Char → List Char
  | [] => []
  | [c] => [c]
  | c1 :: c2 :: rest =>
    if (97 ≤ c1.toNat && c1.toNat ≤ 122) && (65 ≤ c2.toNat && c2.toNat ≤ 90) then
      c1 :: Char.ofNat 0x20 :: camelSpace (c2 :: rest)
    else c1 :: camelSpace (c2 :: rest)

/-- Capitalization pass of `formatLabel`: `replace(/^./, upper)`.  The regex
dot does not match a line terminator, so such a first character is kept. -/
def capitalizeFirst : List Char → List Char
  | [] => []
  | c :: rest =>
    if c.toNat ∈ [0xA, 0xD, 0x2028, 0x2029] then c :: rest
    else Char.toUpper c :: rest

/-- `formatLabel`: camelCase spacing, underscores to spaces, first letter
upper-cased. -/
def formatLabel (key : String) : String :=
  String.mk (capitalizeFirst ((camelSpace key.data).flatMap
    (charMapPass [Char.ofNat 0x5F] [Char.ofNat 0x20])))

/-- `formatLabelForPdf`: the same three replacements as `formatLabel`
(repeated inline in the source), followed by `sanitizeForPdf`. -/
def formatLabelForPdf (key : String) : String :=
  sanitizeForPdf (formatLabel key)

/-- `escapeHtml`: the three sequential global replaces for the markup
metacharacters. -/
def escapeHtml (s : String) : String :=
  String.mk (((s.data.flatMap
    (charMapPass [Char.ofNat 0x26] "&amp;".data)).flatMap
    (charMapPass [Char.ofNat 0x3C] "&lt;".data)).flatMap
    (charMapPass [Char.ofNat 0x3E] "&gt;".data))

mutual

/-- Element coercion of JavaScript `Array.prototype.join`: `null` and
`undefined` become empty, nested arrays join with a bare comma, plain
objects print as `[object Object]`. -/
def jsJoinElemStr : Json → String
  | .null => ""
  | .bool b => if b then "true" else "false"
  | .num n => toString n
  | .str s => s
  | .arr xs => String.intercalate "," (jsJoinElemList xs)
  | .obj _ => "[object Object]"

/-- Join coercion of each element of a list. -/
def jsJoinElemList : List Json → List String
  | [] => []
  | x :: xs => jsJoinElemStr x :: jsJoinElemList xs

end

/-- JavaScript `String(v)` coercion of a payload value. -/
def jsToString : Json → String
  | .null => "null"
  | .bool b => if b then "true" else "false"
  | .num n => toString n
  | .str s => s
  | .arr xs => String.intercalate "," (jsJoinElemList xs)
  | .obj _ => "[object Object]"

/-- Template-literal coercion of a possibly-`undefined` value. -/
def jsToStringU : Option Json → String
  | none => "undefined"
  | some j => jsToString j

/-- Optional-chaining read `row?.[k]`: `null` (and `undefined`) bases give
`undefined` instead of throwing. -/
def jsGetOC : Json → String → Option Json
  | .null, _ => none
  | j, k => jsGet j k

end ToPdf

namespace ToPdf

/-! ### Termination measure lemmas -/

theorem jweightL_of_mem {x : Json} {xs : List Json} (h : x ∈ xs) :
    jweight x < jweightL xs := by
  induction xs with
  | nil => cases h
  | cons y ys ih =>
    rcases List.mem_cons.mp h with rfl | hm
    · simp [jweightL]; omega
    · have := ih hm
      simp [jweightL]; omega

theorem jweightKV_of_mem {p : String × Json} {kvs : List (String × Json)}
    (h : p ∈ kvs) : jweight p.2 < jweightKV kvs := by
  induction kvs with
  | nil => cases h
  | cons q qs ih =>
    rcases List.mem_cons.mp h with rfl | hm
    · simp [jweightKV]; omega
    · have := ih hm
      rcases q with ⟨k, v⟩
      simp [jweightKV]; omega

theorem jweight_scalar {j : Json} (h : jsonIsScalar j = true) : jweight j = 1 := by
  cases j <;> simp_all [jsonIsScalar, jweight]

theorem jweightL_pos (xs : List Json) : 1 ≤ jweightL xs := by
  cases xs with
  | nil => simp [jweightL]
  | cons x xs => simp [jweightL]; omega

theorem jweightKV_pos (kvs : List (String × Json)) : 1 ≤ jweightKV kvs := by
  cases kvs with
  | nil => simp [jweightKV]
  | cons q qs => rcases q with ⟨k, v⟩; simp [jweightKV]; omega

theorem jweight_jsGet_le {j v : Json} {k : String} (h : jsGet j k = some v) :
    jweight v ≤ jweight j := by
  cases j with
  | obj kvs =>
    simp only [jsGet, Option.map_eq_some'] at h
    obtain ⟨p, hp, rfl⟩ := h
    have hm := List.mem_of_find?_eq_some hp
    have := jweightKV_of_mem hm
    simp [jweight]; omega
  | arr xs =>
    simp only [jsGet] at h
    split at h
    · have hp := jweightL_pos xs
      cases h
      simp only [jweight]
      omega
    · split at h
      · have hm := List.get?_mem h
        have := jweightL_of_mem hm
        simp [jweight]; omega
      · cases h
  | str s =>
    simp only [jsGet] at h
    split at h
    · cases h; simp [jweight]
    · split at h
      · simp only [Option.map_eq_some'] at h
        obtain ⟨c, _, rfl⟩ := h
        simp [jweight]
      · cases h
  | null => cases h
  | bool b => cases h
  | num n => cases h

theorem jweight_jsGetOC_le {j v : Json} {k : String} (h : jsGetOC j k = some v) :
    jweight v ≤ jweight j := by
  cases j with
  | null => simp [jsGetOC] at h
  | bool b =>
    have h2 : jsGet (Json.bool b) k = some v := h
    exact jweight_jsGet_le h2
  | num n =>
    have h2 : jsGet (Json.num n) k = some v := h
    exact jweight_jsGet_le h2
  | str s =>
    have h2 : jsGet (Json.str s) k = some v := h
    exact jweight_jsGet_le h2
  | arr xs =>
    have h2 : jsGet (Json.arr xs) k = some v := h
    exact jweight_jsGet_le h2
  | obj kvs =>
    have h2 : jsGet (Json.obj kvs) k = some v := h
    exact jweight_jsGet_le h2

/-! ### Column derivation in the HTML table path
(`renderArrayAsHtml`, ConvertToPdf.node.ts:902-908): the reduce over all
rows collecting keys of complex rows into a `Set` (first-seen order). -/

/-- Add keys to an accumulator, skipping ones already present
(`Set.add` semantics). -/
def addNewKeys (acc : List String) (ks : List String) : List String :=
  ks.foldl (fun a k => if k ∈ a then a else a ++ [k]) acc

/-- Union of `Object.keys` across all rows that are non-null objects
(`cur && typeof cur === "object"`), in first-seen order. -/
def colKeysHtmlUnion (rows : List Json) : List String :=
  rows.foldl (fun acc cur => if jsonIsComplex cur then addNewKeys acc (jsKeys cur) else acc) []

/-- The `-` placeholder span emitted for null/undefined values. -/
def htmlNullSpan : String := "<span class=\"null\">-</span>"

/-- True for values with `typeof v === "object"` (null included), the test
`formatValue` applies to the head of a nested array. -/
def jsTypeofObjectB : Json → Bool
  | .null => true
  | .arr _ => true
  | .obj _ => true
  | _ => false

mutual

/-- `formatValue` (ConvertToPdf.node.ts:989-1018) on a present value. -/
def formatValueHtmlJ : Json → String
  | .null => htmlNullSpan
  | .bool b =>
    if b then "<span class=\"bool-true\">Ja</span>"
    else "<span class=\"bool-false\">Nein</span>"
  | .num n => "<span class=\"number\">" ++ toString n ++ "</span>"
  | .str s => escapeHtml s
  | .arr [] => htmlNullSpan
  | .arr (h :: t) =>
    if jsTypeofObjectB h then renderArrayAsHtml (h :: t)
    else escapeHtml (String.intercalate ", " (jsJoinElemList (h :: t)))
  | .obj kvs =>
    "<table class=\"nested\">" ++
      String.join (kvs.attach.map (fun p =>
        "<tr><th>" ++ escapeHtml (formatLabel p.1.1) ++ "</th><td>" ++
          formatValueHtmlJ p.1.2 ++ "</td></tr>")) ++ "</table>"
termination_by v => jweight v
decreasing_by
  · simp_wf
    simp only [jweight]
    omega
  · simp_wf
    have := jweightKV_of_mem p.2
    simp only [jweight]
    omega

/-- `renderArrayAsHtml` (ConvertToPdf.node.ts:898-925). -/
def renderArrayAsHtml : List Json → String
  | [] => "<p>Keine Daten</p>"
  | r0 :: rest =>
    if jsonIsComplex r0 then
      let keys := colKeysHtmlUnion (r0 :: rest)
      let header := String.join (keys.map (fun k =>
        "<th>" ++ escapeHtml (formatLabel k) ++ "</th>"))
      let body := String.join ((r0 :: rest).attach.map (fun rp =>
        "<tr>" ++ String.join (keys.map (fun k => "<td>" ++
          (match hv : jsGetOC rp.1 k with
           | none => htmlNullSpan
           | some v => formatValueHtmlJ v) ++ "</td>")) ++ "</tr>"))
      "<table><thead><tr>" ++ header ++ "</tr></thead><tbody>" ++ body ++
        "</tbody></table>"
    else
      "<ul>" ++ String.join ((r0 :: rest).attach.map (fun xp =>
        "<li>" ++ formatValueHtmlJ xp.1 ++ "</li>")) ++ "</ul>"
termination_by rows => jweightL rows
decreasing_by
  · simp_wf
    have h1 := jweight_jsGetOC_le hv
    have h2 := jweightL_of_mem rp.2
    omega
  · simp_wf
    exact jweightL_of_mem xp.2

/-- Dispatch of an array-valued property to `renderArrayAsHtml` (its
argument is always an array at the call sites). -/
def renderArrayValueHtml : Json → String
  | .arr xs => renderArrayAsHtml xs
  | _ => ""

/-- `renderObjectAsHtml` (ConvertToPdf.node.ts:928-975), over the object
key/value list: scalar summary section first, then one section per
array-valued key, each part joined with a newline. -/
def renderObjectAsHtml (kvs : List (String × Json)) : String :=
  let scalars := kvs.attach.filter (fun p =>
    match p.1.2 with | .arr _ => false | _ => true)
  let arrays := kvs.attach.filter (fun p =>
    match p.1.2 with | .arr _ => true | _ => false)
  let parts :=
    (if scalars.length > 0 then
      ["<div class=\"summary\">", "<h2>Zusammenfassung</h2>",
        "<table class=\"summary-table\">"] ++
      scalars.map (fun p =>
        "<tr><th>" ++ escapeHtml (formatLabel p.1.1) ++ "</th><td>" ++
          formatValueHtmlJ p.1.2 ++ "</td></tr>") ++
      ["</table>", "</div>"]
    else []) ++
    arrays.flatMap (fun p =>
      ["<div class=\"data-section\">",
        "<h2>" ++ escapeHtml (formatLabel p.1.1) ++ "</h2>",
        renderArrayValueHtml p.1.2, "</div>"]) ++
    (if arrays.length = 0 && scalars.length = 0 then ["<table>", "</table>"]
     else [])
  String.intercalate "\n" parts

end

/-- `formatValue` on a possibly-`undefined` value (null and undefined both
render the placeholder span). -/
def formatValueHtml : Option Json → String
  | none => htmlNullSpan
  | some v => formatValueHtmlJ v

/-! ### PDF-side value formatting (ConvertToPdf.node.ts:1801-1809) -/

/-- Modelled from the spec: the host JSON serializer quoting of a string
(`JSON.stringify`), which the PDF formatter applies to nested objects.
Backslash, quote and the common control characters are escaped. -/
def jsonQuote (s : String) : String :=
  String.mk (Char.ofNat 34 :: s.data.flatMap (fun c =>
    if c = Char.ofNat 92 then [Char.ofNat 92, Char.ofNat 92]
    else if c = Char.ofNat 34 then [Char.ofNat 92, Char.ofNat 34]
    else if c = Char.ofNat 0xA then [Char.ofNat 92, Char.ofNat 110]
    else if c = Char.ofNat 0xD then [Char.ofNat 92, Char.ofNat 114]
    else if c = Char.ofNat 0x9 then [Char.ofNat 92, Char.ofNat 116]
    else [c]) ++ [Char.ofNat 34])

mutual

/-- Modelled from the spec: the host JSON serializer (`JSON.stringify`)
on a payload value without indentation. -/
def stringifyJson : Json → String
  | .null => "null"
  | .bool b => if b then "true" else "false"
  | .num n => toString n
  | .str s => jsonQuote s
  | .arr xs => "[" ++ String.intercalate "," (stringifyList xs) ++ "]"
  | .obj kvs => "\x7b" ++ String.intercalate "," (stringifyKVs kvs) ++ "\x7d"

/-- Serialization of each array element. -/
def stringifyList : List Json → List String
  | [] => []
  | x :: xs => stringifyJson x :: stringifyList xs

/-- Serialization of each object entry. -/
def stringifyKVs : List (String × Json) → List String
  | [] => []
  | (k, v) :: kvs => (jsonQuote k ++ ":" ++ stringifyJson v) :: stringifyKVs kvs

end

mutual

/-- `formatValueForPdf` (ConvertToPdf.node.ts:1801-1809) on a present
value. -/
def formatValueForPdf : Json → String
  | .null => "-"
  | .bool b => if b then "Ja" else "Nein"
  | .num n => toString n
  | .str s => sanitizeForPdf s
  | .arr xs => sanitizeForPdf (String.intercalate ", " (formatValueList xs))
  | .obj kvs => sanitizeForPdf (stringifyJson (.obj kvs))

/-- `formatValueForPdf` mapped over array elements. -/
def formatValueList : List Json → List String
  | [] => []
  | x :: xs => formatValueForPdf x :: formatValueList xs

end

/-- `formatValueForPdf` on a possibly-`undefined` value (`undefined` and
`null` both render the dash placeholder). -/
def formatValueForPdfU : Option Json → String
  | none => "-"
  | some v => formatValueForPdf v

/-! ### Field filter (`filterDataFields`, ConvertToPdf.node.ts:1405-1445) -/

/-- The recognized rendering options assembled in `execute`
(ConvertToPdf.node.ts:675-679): both field lists are already trimmed,
lower-cased and free of empty entries. -/
structure RenderOptions where
  excludeFields : List String
  includeFields : List String
  pdfTitle : String
deriving Repr

/-- `shouldIncludeField` (ConvertToPdf.node.ts:1409-1423): a non-empty
include list acts as an allowlist overriding the exclude list. -/
def shouldIncludeField (opts : RenderOptions) (fieldName : String) : Bool :=
  let lowerField := strToLower fieldName
  if opts.includeFields.length > 0 then opts.includeFields.contains lowerField
  else if opts.excludeFields.length > 0 then
    !(opts.excludeFields.contains lowerField)
  else true

mutual

/-- `filterObject` (ConvertToPdf.node.ts:1426-1442): arrays map
element-wise, objects keep accepted keys and recurse, scalars pass
through. -/
def filterObject (opts : RenderOptions) : Json → Json
  | .arr xs => .arr (filterList opts xs)
  | .obj kvs => .obj (filterKVs opts kvs)
  | j => j

/-- `filterObject` mapped over array elements. -/
def filterList (opts : RenderOptions) : List Json → List Json
  | [] => []
  | x :: xs => filterObject opts x :: filterList opts xs

/-- Key filtering over an object entry list. -/
def filterKVs (opts : RenderOptions) : List (String × Json) →
    List (String × Json)
  | [] => []
  | (k, v) :: kvs =>
    if shouldIncludeField opts k then
      (k, filterObject opts v) :: filterKVs opts kvs
    else filterKVs opts kvs

end

/-- `filterDataFields` (ConvertToPdf.node.ts:1405-1445). -/
def filterDataFields (data : Json) (opts : RenderOptions) : Json :=
  filterObject opts data

/-! ### Content-type routing in `execute`
(ConvertToPdf.node.ts:691-798) -/

/-- Substring search on character lists (JavaScript `includes`). -/
def containsSub (needle : List Char) : List Char → Bool
  | [] => needle.isEmpty
  | c :: rest => needle.isPrefixOf (c :: rest) || containsSub needle rest

/-- JavaScript `String.prototype.includes`. -/
def stringIncludes (s sub : String) : Bool :=
  containsSub sub.data s.data

/-- The three rendering routes the dispatcher can choose for a content
string. -/
inductive Route where
  | structured : Route
  | markup : Route
  | plain : Route
deriving DecidableEq, Repr

/-- The routing `execute` performs on a content string: the structured
route is taken exactly when the trimmed string starts with a brace or a
bracket (`isJsonData`, ConvertToPdf.node.ts:708, 768); otherwise the
markup route is taken when the lower-cased trimmed string starts with `<`
or contains one of the four tag markers (`isHtml`,
ConvertToPdf.node.ts:773-774); otherwise the plain-text route. -/
def classifyContent (s : String) : Route :=
  let trimmed := jsTrim s
  if strStartsWith trimmed "\x7b" || strStartsWith trimmed "[" then .structured
  else
    let tl := strToLower (jsTrim s)
    if strStartsWith tl "<" || stringIncludes tl "<html" ||
        stringIncludes tl "<body" || stringIncludes tl "<div" ||
        stringIncludes tl "<table" then .markup
    else .plain

/-- Modelled from the spec: the classification rule exactly as claim C2
words it, with the host JSON parser abstracted as a predicate — markup
exactly when the trimmed string starts with `<` and ends with `>`;
otherwise structured when it starts with a brace or bracket and parses;
otherwise plain text. -/
def classifySpecC2 (s : String) (jsonParses : String → Bool) : Route :=
  let t := jsTrim s
  if strStartsWith t "<" && strEndsWith t ">" then .markup
  else if (strStartsWith t "\x7b" || strStartsWith t "[") && jsonParses t then
    .structured
  else .plain

/-! ### Cell truncation (ConvertToPdf.node.ts:1727-1733, 1746-1752) -/

/-- JavaScript `substring(0, e)`: a negative end index clamps to zero. -/
def jsSubstringTo (s : String) (e : Int) : String :=
  String.mk (s.data.take e.toNat)

/-- The truncation applied to a header label or cell value: a string
longer than the budget is cut to `maxChars - 2` characters with the
two-character ellipsis appended. -/
def truncateToBudget (s : String) (maxChars : Int) : String :=
  if (s.length : Int) > maxChars then jsSubstringTo s (maxChars - 2) ++ ".."
  else s

/-- Character budget of a table cell: `Math.floor(colWidth / 4.5)`. -/
def cellCharBudget (colWidth : ℚ) : Int :=
  ⌊colWidth / (9 / 2)⌋

/-- Character budget of a header label: `Math.floor(colWidth / 5)`. -/
def headerCharBudget (colWidth : ℚ) : Int :=
  ⌊colWidth / 5⌋

/-- Modelled from the spec: the A4 page width in PDF points, the default
page size of the PDF document capability (`page.getSize().width`). -/
def a4Width : ℚ := 59528 / 100

/-- Modelled from the spec: the A4 page height in PDF points
(`page.getSize().height`). -/
def a4Height : ℚ := 84189 / 100

/-- Page margin used by both renderers (ConvertToPdf.node.ts:1385, 1453). -/
def pageMargin : ℚ := 50

/-! ### Column derivation in the generic structured path
(ConvertToPdf.node.ts:1700-1710): the keys of the first row whose value in
that row is simple. -/

/-- Simple (non-object-typed) column keys drawn from the first row only.
A `jsGet` miss keeps the key, as `typeof undefined !== "object"` does. -/
def colKeysGeneric : List Json → List String
  | [] => []
  | r0 :: _ =>
    if jsonIsComplex r0 then
      (jsKeys r0).filter (fun k =>
        match jsGet r0 k with
        | some v => !jsonIsComplex v
        | none => true)
    else []

end ToPdf


namespace ToPdf

/-! ### Template interpolator, dotted-path pass
(`processTemplate` line 1851-1861, `getNestedValue` line 1887-1896) -/

/-- JavaScript `path.split(".")`: chunks between dots, keeping empty
chunks. -/
def splitDot : List Char → List (List Char)
  | [] => [[]]
  | c :: rest =>
    if c = Char.ofNat 0x2E then [] :: splitDot rest
    else
      match splitDot rest with
      | t :: ts => (c :: t) :: ts
      | [] => [[c]]

/-- Path walk of `getNestedValue` (`current = current[part]`): a
`null`/`undefined` intermediate value yields `undefined`. -/
def walkPath : Option Json → List String → Option Json
  | cur, [] => cur
  | none, _ :: _ => none
  | some .null, _ :: _ => none
  | some j, part :: rest => walkPath (jsGet j part) rest

/-- `getNestedValue`: walk a dot-separated path; a falsy root or an empty
path yields `undefined`.  A final value of `null` is returned as `null`. -/
def getNestedValue (obj : Json) (path : String) : Option Json :=
  if !jsTruthy obj || path = "" then none
  else walkPath (some obj) ((splitDot path.data).map String.mk)

/-- Replacement text for one `\x7b\x7bdata.path\x7d\x7d` placeholder
(ConvertToPdf.node.ts:1852-1860): missing and `null` resolutions give the
empty string, arrays and objects render as tables, other values are
markup-escaped after `String()` coercion. -/
def renderDataValue (data : Json) (fieldPath : String) : String :=
  match getNestedValue data fieldPath with
  | none => ""
  | some .null => ""
  | some (.arr xs) => renderArrayAsHtml xs
  | some (.obj kvs) => renderObjectAsHtml kvs
  | some v => escapeHtml (jsToString v)

/-- Characters admitted in a placeholder path by the pattern class
`[a-zA-Z0-9_\.]`. -/
def isPathChar (c : Char) : Bool :=
  (97 ≤ c.toNat && c.toNat ≤ 122) || (65 ≤ c.toNat && c.toNat ≤ 90) ||
    (48 ≤ c.toNat && c.toNat ≤ 57) || c = Char.ofNat 0x5F || c = Char.ofNat 0x2E

/-- Match of the literal opener `\x7b\x7bdata.` (the `data` letters
case-insensitively, as the pattern carries the `i` flag), returning the
characters after it. -/
def matchDataOpen (l : List Char) : Option (List Char) :=
  match l with
  | c1 :: c2 :: c3 :: c4 :: c5 :: c6 :: c7 :: rest =>
    if c1 = Char.ofNat 0x7B && c2 = Char.ofNat 0x7B &&
        (c3 = Char.ofNat 100 || c3 = Char.ofNat 68) &&
        (c4 = Char.ofNat 97 || c4 = Char.ofNat 65) &&
        (c5 = Char.ofNat 116 || c5 = Char.ofNat 84) &&
        (c6 = Char.ofNat 97 || c6 = Char.ofNat 65) &&
        c7 = Char.ofNat 0x2E then some rest
    else none
  | _ => none

/-- True when the list starts with the closing braces `\x7d\x7d`. -/
def closeBracesOk : List Char → Bool
  | c1 :: c2 :: _ => c1 = Char.ofNat 0x7D && c2 = Char.ofNat 0x7D
  | _ => false

theorem matchDataOpen_length {l r : List Char} (h : matchDataOpen l = some r) :
    l.length = r.length + 7 := by
  match l, h with
  | c1 :: c2 :: c3 :: c4 :: c5 :: c6 :: c7 :: rest, h => ?_
  simp only [matchDataOpen] at h
  split at h
  · cases h; simp
  · cases h

theorem length_dropWhile_le' (p : Char → Bool) (l : List Char) :
    (l.dropWhile p).length ≤ l.length := by
  induction l with
  | nil => simp
  | cons c rest ih =>
    by_cases hp : p c = true
    · simp [List.dropWhile, hp]; omega
    · simp [List.dropWhile, hp]

/-- The global replace of `/\x7b\x7bdata\.([a-zA-Z0-9_\.]+)\x7d\x7d/gi`:
scan left to right; at a match of the opener followed by a non-empty run
of path characters and the closing braces, emit the rendered value and
continue after the match (the replacement itself is not rescanned);
otherwise keep one character and continue.  The path capture is the
maximal run of class characters, as the class excludes the closing
brace so regex backtracking cannot shorten it. -/
def substDataScan (data : Json) : List Char → List Char
  | [] => []
  | c :: rest =>
    match hm : matchDataOpen (c :: rest) with
    | some afterOpen =>
      let path := afterOpen.takeWhile isPathChar
      let after := afterOpen.dropWhile isPathChar
      if path ≠ [] && closeBracesOk after then
        (renderDataValue data (String.mk path)).data ++
          substDataScan data (after.drop 2)
      else c :: substDataScan data rest
    | none => c :: substDataScan data rest
termination_by l => l.length
decreasing_by
  all_goals simp_wf
  all_goals try omega
  all_goals try simp only [List.length_drop]
  all_goals have h1 := matchDataOpen_length hm
  all_goals simp only [List.length_cons] at h1
  all_goals have h2 := length_dropWhile_le' isPathChar afterOpen
  all_goals omega

/-- The `\x7b\x7bdata.path\x7d\x7d` substitution pass of
`processTemplate` on a template string. -/
def processTemplateDataPass (template : String) (data : Json) : String :=
  String.mk (substDataScan data template.data)

/-! ### Plain-text fallback rendering
(`renderTextPdfFallback`, ConvertToPdf.node.ts:1380-1398) -/

/-- Drop characters through the first `>` (the regex `<[^>]*>` always
matches up to the first closing angle bracket). -/
def findGtSplit : List Char → Option (List Char)
  | [] => none
  | c :: rest => if c = Char.ofNat 0x3E then some rest else findGtSplit rest

theorem findGtSplit_length {l r : List Char} (h : findGtSplit l = some r) :
    r.length < l.length := by
  induction l with
  | nil => cases h
  | cons c rest ih =>
    simp only [findGtSplit] at h
    split at h
    · cases h; simp
    · have := ih h
      simp; omega

/-- Scanner for `replace(/<[^>]*>/g, " ")`: an unmatched `<` (no later
`>`) stays in place. -/
def stripTagsAux : List Char → List Char
  | [] => []
  | c :: rest =>
    if c = Char.ofNat 0x3C then
      match hg : findGtSplit rest with
      | some after => Char.ofNat 0x20 :: stripTagsAux after
      | none => c :: stripTagsAux rest
    else c :: stripTagsAux rest
termination_by l => l.length
decreasing_by
  all_goals simp_wf
  all_goals try omega
  all_goals try have h1 := findGtSplit_length hg
  all_goals omega

/-- `stripHtmlTags` (ConvertToPdf.node.ts:847-850). -/
def stripHtmlTags (v : String) : String :=
  if v = "" then "" else String.mk (stripTagsAux v.data)

mutual

/-- JavaScript `split(/\s+/)` while reading a chunk: a whitespace
character ends the current chunk; consecutive whitespace forms one
boundary; leading or trailing runs produce empty boundary chunks. -/
def splitWsChunk : List Char → List (List Char)
  | [] => [[]]
  | c :: rest =>
    if jsWhitespace c then [] :: splitWsSkipRun rest
    else
      match splitWsChunk rest with
      | t :: ts => (c :: t) :: ts
      | [] => [[c]]

/-- JavaScript `split(/\s+/)` while inside a whitespace run. -/
def splitWsSkipRun : List Char → List (List Char)
  | [] => [[]]
  | c :: rest =>
    if jsWhitespace c then splitWsSkipRun rest
    else
      match splitWsChunk rest with
      | t :: ts => (c :: t) :: ts
      | [] => [[c]]

end

/-- JavaScript `text.split(/\s+/)` as used by `wrapText`. -/
def jsSplitWs (s : String) : List String :=
  (splitWsChunk s.data).map String.mk

/-- `wrapText` (ConvertToPdf.node.ts:1898-1914): greedy word wrapping
against measured text width.  `widthOf` models the external font metric
`font.widthOfTextAtSize(trial, fontSize)` at the caller's font size. -/
def wrapText (widthOf : String → ℚ) (text : String) (maxWidth : ℚ) :
    List String :=
  let step := fun (acc : List String × String) (w : String) =>
    let current := acc.2
    let trial := if current ≠ "" then current ++ " " ++ w else w
    if widthOf trial > maxWidth then
      (if current ≠ "" then acc.1 ++ [current] else acc.1, w)
    else (acc.1, trial)
  let fin := (jsSplitWs text).foldl step ([], "")
  if fin.2 ≠ "" then fin.1 ++ [fin.2] else fin.1

/-- One primitive draw instruction recorded with the page it lands on.
The spec's draw-operation attributes not examined by any claim (color,
boldness of fallback text, line thickness) are omitted. -/
inductive DrawOp where
  | text (page : Nat) (s : String) (x y size : ℚ) (bold : Bool) : DrawOp
  | line (page : Nat) (x1 y1 x2 y2 : ℚ) : DrawOp
  | rect (page : Nat) (x y w h : ℚ) : DrawOp
deriving Repr

/-- Page of a draw operation. -/
def DrawOp.page : DrawOp → Nat
  | .text p _ _ _ _ _ => p
  | .line p _ _ _ _ => p
  | .rect p _ _ _ _ => p

/-- State of the plain-text fallback loop.  `pageVar` is the `const page`
binding the draw call uses; `pagesCreated` counts pages added to the
document (the current page is the one with index `pagesCreated - 1`).
Each recorded pair is (pages created when drawn, page drawn on). -/
structure FbState where
  pageVar : Nat
  pagesCreated : Nat
  y : ℚ
  ops : List (Nat × DrawOp)

/-- The fallback drawing loop (ConvertToPdf.node.ts:1390-1398): when a
line does not fit, a page is added and `y` is reset to the top of the new
page, but the draw call still targets `page` — the `const` binding to the
first page. -/
def fallbackDrawLoop (hPage : ℚ) (lines : List String) : FbState :=
  lines.foldl (fun st line =>
    let st :=
      if st.y < pageMargin + 11 then
        { st with pagesCreated := st.pagesCreated + 1, y := hPage - pageMargin }
      else st
    let st := { st with ops := st.ops ++
      [(st.pagesCreated, DrawOp.text st.pageVar line pageMargin (st.y - 11) 11 false)] }
    { st with y := st.y - (11 + 4) })
    { pageVar := 0, pagesCreated := 1, y := hPage - pageMargin, ops := [] }

/-- The plain-text branch of `renderTextPdfFallback`
(ConvertToPdf.node.ts:1380-1398): strip tags, sanitize, wrap, draw. -/
def renderTextFallbackPlain (hPage wPage : ℚ) (widthOf : String → ℚ)
    (htmlOrText : String) : FbState :=
  let text := sanitizeForPdf (stripHtmlTags htmlOrText)
  let lines := wrapText widthOf text (wPage - 2 * pageMargin)
  fallbackDrawLoop hPage lines

/-! ### Per-item output assembly (`execute`, ConvertToPdf.node.ts:804-835) -/

/-- The recognized `outputType` values. -/
inductive OutputType where
  | binary : OutputType
  | url : OutputType
  | both : OutputType
deriving DecidableEq, Repr

/-- JavaScript property assignment on an object: update in place when the
key exists, else append. -/
def jsSetField (obj : List (String × Json)) (k : String) (v : Json) :
    List (String × Json) :=
  if obj.any (fun p => p.1 = k) then
    obj.map (fun p => if p.1 = k then (k, v) else p)
  else obj ++ [(k, v)]

/-- Field lookup on an output record. -/
def lookupField (obj : List (String × Json)) (k : String) : Option Json :=
  (obj.find? (fun p => p.1 = k)).map (fun p => p.2)

/-- One emitted item: its JSON fields and, when attached, the file name of
the `pdf` binary. -/
structure ItemOutput where
  json : List (String × Json)
  binaryPdf : Option String
deriving Repr

/-- Output assembly for one item (ConvertToPdf.node.ts:804-832): attach
the binary for `binary`/`both`; for `url`/`both` attach `pdfUrl` and
`pdfFileName` on upload success, or `pdfUrlError` with the error message
on failure — the `try`/`catch` keeps a failed upload from aborting the
item.  `uploadResult` abstracts the external upload collaborator. -/
def buildItemOutput (itemJson : List (String × Json)) (outFileName : String)
    (ot : OutputType) (uploadResult : Except String String) : ItemOutput :=
  let base : ItemOutput := { json := itemJson, binaryPdf := none }
  let withBinary :=
    if ot = .binary || ot = .both then { base with binaryPdf := some outFileName }
    else base
  if ot = .url || ot = .both then
    match uploadResult with
    | .ok link =>
      let j1 := jsSetField withBinary.json "pdfUrl" (.str link)
      let j2 := jsSetField j1 "pdfFileName" (.str outFileName)
      { withBinary with json := j2 }
    | .error msg =>
      let j1 := jsSetField withBinary.json "pdfUrlError" (.str ("Failed to upload PDF: " ++ msg))
      { withBinary with json := j1 }
  else withBinary

/-- The batch loop of `execute` over its items: every item is pushed to
the return list, whatever its upload outcome. -/
def executeOutputLoop
    (items : List (List (String × Json) × String × OutputType ×
      Except String String)) : List ItemOutput :=
  items.map (fun t => buildItemOutput t.1 t.2.1 t.2.2.1 t.2.2.2)

end ToPdf

namespace ToPdf

/-! ### Structured PDF renderer
(`renderStructuredPdf`, ConvertToPdf.node.ts:1448-1765).

The layout state is the current page, the number of pages added to the
document, the vertical cursor and the emitted draw operations; the page
geometry comes in as parameters (the spec treats the PDF document as a
capability whose pages report their size).  JavaScript property reads that
can throw run in `Except`. -/

/-- Cursor state of a structured render pass. -/
structure PdfState where
  page : Nat
  pagesCreated : Nat
  y : ℚ
  ops : List DrawOp
deriving Repr

/-- Fresh document state: one page added, cursor at the top margin. -/
def initPdfState (hPage : ℚ) : PdfState :=
  { page := 0, pagesCreated := 1, y := hPage - pageMargin, ops := [] }

/-- `checkNewPage` (ConvertToPdf.node.ts:1466-1471): when the needed
space undershoots the margin, add a page, make it current and reset the
cursor to its top. -/
def checkNewPage (hPage needed : ℚ) (st : PdfState) : PdfState :=
  if st.y - needed < pageMargin then
    { st with
      page := st.pagesCreated
      pagesCreated := st.pagesCreated + 1
      y := hPage - pageMargin }
  else st

/-- The `drawText` helper (ConvertToPdf.node.ts:1474-1478): text is
sanitized and drawn on the current page. -/
def drawTextOp (s : String) (x yPos size : ℚ) (bold : Bool)
    (st : PdfState) : PdfState :=
  { st with ops := st.ops ++ [DrawOp.text st.page (sanitizeForPdf s) x yPos size bold] }

/-- `drawText` on a payload value: `String(text || "")`. -/
def drawTextJsOp (j : Json) (x yPos size : ℚ) (bold : Bool)
    (st : PdfState) : PdfState :=
  drawTextOp (if jsTruthy j then jsToString j else "") x yPos size bold st

/-- The `drawLine` helper (thickness and color are not modelled). -/
def drawLineOp (x1 y1 x2 y2 : ℚ) (st : PdfState) : PdfState :=
  { st with ops := st.ops ++ [DrawOp.line st.page x1 y1 x2 y2] }

/-- The `drawRect` helper (fill color is not modelled). -/
def drawRectOp (x yPos w h : ℚ) (st : PdfState) : PdfState :=
  { st with ops := st.ops ++ [DrawOp.rect st.page x yPos w h] }

/-- Decrement of the vertical cursor. -/
def subY (d : ℚ) (st : PdfState) : PdfState :=
  { st with y := st.y - d }

/-- JavaScript `a || b` on a possibly-`undefined` left operand. -/
def jsOrU (a : Option Json) (b : Json) : Json :=
  match a with
  | some v => if jsTruthy v then v else b
  | none => b

/-- JavaScript `x || d` on a string option. -/
def strOrDefault (s d : String) : String :=
  if s = "" then d else s

/-- JavaScript `x > k` for the length comparisons of the Git branch:
numbers compare directly, numeric strings and booleans coerce;
`undefined` compares false.  Exotic object/array coercions are
approximated as false (no claim exercises them). -/
def jsNumGt (v : Option Json) (k : Int) : Bool :=
  match v with
  | some (.num n) => n > k
  | some (.str s) => match s.toInt? with | some n => n > k | none => false
  | some (.bool b) => (if b then (1 : Int) else 0) > k
  | some .null => (0 : Int) > k
  | _ => false

/-- JavaScript `j.substring(0, e)`: a `TypeError` unless the receiver is
a string. -/
def jsSubstringE (j : Json) (e : Int) : Except String String :=
  match j with
  | .str s => .ok (jsSubstringTo s e)
  | _ => .error "TypeError: substring is not a function"

/-- JavaScript `j.replace(/\n/g, \" \")`: a `TypeError` unless the
receiver is a string. -/
def jsReplaceNewlinesE (j : Json) : Except String String :=
  match j with
  | .str s => .ok (String.mk (s.data.map (fun c =>
      if c = Char.ofNat 0xA then Char.ofNat 0x20 else c)))
  | _ => .error "TypeError: replace is not a function"

/-- Loop bound `i < commits.length` of the Git branch: a non-numeric
`length` runs zero iterations (`NaN` comparisons are false). -/
def jsLoopLen (j : Json) : Nat :=
  match jsGet j "length" with
  | some (.num n) => n.toNat
  | _ => 0

/-- One commit row of the Git report (ConvertToPdf.node.ts:1553-1602). -/
def gitCommitRow (hPage wPage : ℚ) (fmtDate : Json → String)
    (commitsJ : Json) (i : Nat) (st : PdfState) : Except String PdfState := do
  let contentW := wPage - 100
  let st := checkNewPage hPage 19 st
  let commit := jsGet commitsJ (toString i)
  let st := if i % 2 = 0 then drawRectOp 50 (st.y - 12) contentW 14 st else st
  let ss ← jsGetUE commit "shortSha"
  let shaJ : Json ←
    (if jsTruthyO ss then pure (jsOrU ss (.str "-"))
     else do
       let sh ← jsGetUE commit "sha"
       pure (jsOrU sh (.str "-")))
  let shaStr ← jsSubstringE shaJ 7
  let st := drawTextOp shaStr 54 (st.y - 9) 8 false st
  let mg ← jsGetUE commit "message"
  let msgJ := jsOrU mg (.str "-")
  let displayMsg : Json ←
    (if jsNumGt (jsGet msgJ "length") 40 then do
       let t ← jsSubstringE msgJ 38
       pure (.str (t ++ ".."))
     else pure msgJ)
  let msgStr ← jsReplaceNewlinesE displayMsg
  let st := drawTextOp msgStr 114 (st.y - 9) 8 false st
  let av ← jsGetUE commit "author"
  let authorJ : Json ←
    (match av with
     | some a =>
       if jsTruthy a then
         match a with
         | .str s => pure (.str s)
         | _ => do
           let an ← jsGetE a "name"
           if jsTruthyO an then pure (jsOrU an (.str "-"))
           else pure (.str "-")
       else pure (.str "-")
     | none => pure (.str "-"))
  let displayAuthor : Json ←
    (if jsNumGt (jsGet authorJ "length") 18 then do
       let t ← jsSubstringE authorJ 16
       pure (.str (t ++ ".."))
     else pure authorJ)
  let st := drawTextJsOp displayAuthor 314 (st.y - 9) 8 false st
  let av2 ← jsGetUE commit "author"
  let dateStr : String ←
    (match av2 with
     | some a =>
       if jsTruthy a then do
         let ad ← jsGetE a "date"
         if jsTruthyO ad then pure (fmtDate (jsOrU ad .null))
         else do
           let cd ← jsGetUE commit "date"
           if jsTruthyO cd then pure (fmtDate (jsOrU cd .null)) else pure "-"
       else do
         let cd ← jsGetUE commit "date"
         if jsTruthyO cd then pure (fmtDate (jsOrU cd .null)) else pure "-"
     | none => do
       let cd ← jsGetUE commit "date"
       if jsTruthyO cd then pure (fmtDate (jsOrU cd .null)) else pure "-")
  let st := drawTextOp dateStr 414 (st.y - 9) 8 false st
  let st := drawLineOp 50 (st.y - 12) (50 + contentW) (st.y - 12) st
  pure (subY 14 st)

/-- One repository section of the Git report
(ConvertToPdf.node.ts:1519-1609). -/
def gitRepoSection (hPage wPage : ℚ) (fmtDate : Json → String)
    (repo : Json) (st : PdfState) : Except String PdfState := do
  let contentW := wPage - 100
  let st := checkNewPage hPage 100 st
  let st := drawRectOp 50 (st.y - 14 - 2) contentW (14 + 6) st
  let rv ← jsGetE repo "repository"
  let st := drawTextOp (sanitizeForPdf (jsToString
    (jsOrU rv (.str "Unknown Repository")))) 54 (st.y - 9) 11 true st
  let st := subY 24 st
  let cv ← jsGetE repo "count"
  let countJ : Option Json ←
    (if jsTruthyO cv then pure cv
     else do
       let cm ← jsGetE repo "commits"
       match cm with
       | some cmv =>
         if jsTruthy cmv then pure (jsGet cmv "length")
         else pure (some (.num 0))
       | none => pure (some (.num 0)))
  let st := drawTextOp ("Anzahl Commits: " ++ jsToStringU countJ) 50 (st.y - 9) 9 false st
  let st := subY 19 st
  let st := checkNewPage hPage 28 st
  let st := drawRectOp 50 (st.y - 12) contentW 14 st
  let st := drawTextOp "SHA" 54 (st.y - 9) 9 true st
  let st := drawTextOp "Nachricht" 114 (st.y - 9) 9 true st
  let st := drawTextOp "Autor" 314 (st.y - 9) 9 true st
  let st := drawTextOp "Datum" 414 (st.y - 9) 9 true st
  let st := drawLineOp 50 (st.y - 12) (50 + contentW) (st.y - 12) st
  let st := subY 14 st
  let cm2 ← jsGetE repo "commits"
  let commitsJ := jsOrU cm2 (.arr [])
  let n := jsLoopLen commitsJ
  let st ← (List.range n).foldlM (fun st i =>
    gitCommitRow hPage wPage fmtDate commitsJ i st) st
  let st := drawLineOp 50 (st.y + ((n : ℚ) + 1) * 14 + 2) 50 (st.y + 2) st
  let st := drawLineOp (50 + contentW) (st.y + ((n : ℚ) + 1) * 14 + 2)
    (50 + contentW) (st.y + 2) st
  pure (subY 25 st)

/-- The Git report branch (ConvertToPdf.node.ts:1513-1609). -/
def renderGitReport (hPage wPage : ℚ) (fmtDate : Json → String)
    (data : Json) (opts : RenderOptions) (st : PdfState) :
    Except String PdfState := do
  let st := drawTextOp (strOrDefault opts.pdfTitle "Git Commit Report") 50 st.y 18 true st
  let st := subY 33 st
  match data with
  | .arr repos =>
    repos.foldlM (fun st repo => gitRepoSection hPage wPage fmtDate repo st) st
  | _ => pure st

/-- The `Zusammenfassung` section over the scalar-valued keys
(ConvertToPdf.node.ts:1637-1663).  `scalarKeys.indexOf(key)` is the key's
position (parsed objects have no duplicate keys). -/
def renderScalarsSection (hPage wPage : ℚ)
    (scalars : List (String × Json)) (st : PdfState) : PdfState :=
  let st := drawTextOp "Zusammenfassung" 50 st.y 14 true st
  let st := subY 22 st
  let st := scalars.enum.foldl (fun st ip =>
    let st := checkNewPage hPage 19 st
    let label := formatLabelForPdf ip.2.1
    let valueStr := formatValueForPdf ip.2.2
    let st := if ip.1 % 2 = 0 then drawRectOp 50 (st.y - 12) (wPage - 100) 14 st else st
    let st := drawTextOp label 54 (st.y - 9) 9 true st
    let displayVal := truncateToBudget valueStr 60
    let st := drawTextOp displayVal (50 + 160) (st.y - 9) 9 false st
    let st := drawLineOp 50 (st.y - 12) (50 + (wPage - 100)) (st.y - 12) st
    subY 14 st) st
  subY 15 st

/-- One nested-object section (ConvertToPdf.node.ts:1666-1686): an
indented list of the object's scalar fields, further-nested values
skipped after their page check. -/
def renderObjectSection (hPage : ℚ) (p : String × Json) (st : PdfState) :
    PdfState :=
  let st := checkNewPage hPage 50 st
  let st := drawTextOp (formatLabelForPdf p.1) 50 st.y 11 true st
  let st := subY 17 st
  let okvs := match p.2 with | .obj okvs => okvs | _ => []
  let st := okvs.foldl (fun st q =>
    let st := checkNewPage hPage 19 st
    if jsonIsComplex q.2 then st
    else
      let st := drawTextOp (formatLabelForPdf q.1) 64 (st.y - 9) 8 true st
      let st := drawTextOp (formatValueForPdf q.2) 200 (st.y - 9) 8 false st
      subY 12 st) st
  subY 10 st

/-- One array-of-records table section
(ConvertToPdf.node.ts:1689-1760): heading (for named keys), first-row
column derivation, dash fallback when no simple column exists, otherwise
header row plus data rows with evenly divided column widths.  Reading a
cell of a `null` row throws. -/
def renderArraySectionPdf (hPage wPage : ℚ) (kOpt : Option String)
    (xs : List Json) (st : PdfState) : Except String PdfState := do
  if xs.length = 0 then pure st
  else
    let contentW := wPage - 100
    let st := checkNewPage hPage 60 st
    let st := match kOpt with
      | some k =>
        let st := drawTextOp (formatLabelForPdf k) 50 st.y 11 true st
        subY 19 st
      | none => st
    let colKeys := colKeysGeneric xs
    if colKeys = [] then
      pure (xs.foldl (fun st item =>
        let st := checkNewPage hPage 14 st
        let st := drawTextOp ("- " ++ formatValueForPdf item) 50 (st.y - 9) 9 false st
        subY 14 st) st)
    else do
      let colWidth := contentW / (colKeys.length : ℚ)
      let st := drawRectOp 50 (st.y - 12) contentW 14 st
      let st := colKeys.enum.foldl (fun st ik =>
        let x : ℚ := 50 + (ik.1 : ℚ) * colWidth
        let label := formatLabelForPdf ik.2
        let displayLabel := truncateToBudget label (headerCharBudget colWidth)
        drawTextOp displayLabel (x + 4) (st.y - 9) 8 true st) st
      let st := drawLineOp 50 (st.y - 12) (50 + contentW) (st.y - 12) st
      let st := subY 14 st
      let st ← xs.enum.foldlM (fun st rp => do
        let st := checkNewPage hPage 19 st
        let st := if rp.1 % 2 = 0 then drawRectOp 50 (st.y - 12) contentW 14 st else st
        let st ← colKeys.enum.foldlM (fun st ik => do
          let x : ℚ := 50 + (ik.1 : ℚ) * colWidth
          let v ← jsGetE rp.2 ik.2
          let valueStr := formatValueForPdfU v
          let displayVal := truncateToBudget valueStr (cellCharBudget colWidth)
          pure (drawTextOp displayVal (x + 4) (st.y - 9) 8 false st)) st
        let st := drawLineOp 50 (st.y - 12) (50 + contentW) (st.y - 12) st
        pure (subY 14 st)) st
      pure (subY 20 st)

/-- The generic structured branch (ConvertToPdf.node.ts:1610-1761):
scalar summary, nested-object sections, then array tables; an array
payload renders as the single `_root` table. -/
def renderGenericStructured (hPage wPage : ℚ) (data : Json)
    (opts : RenderOptions) (st : PdfState) : Except String PdfState := do
  let st := drawTextOp (strOrDefault opts.pdfTitle "Datenreport") 50 st.y 18 true st
  let st := subY 33 st
  match data with
  | .arr xs => renderArraySectionPdf hPage wPage none xs st
  | .obj kvs =>
    let scalars := kvs.filter (fun p => !(jsonIsComplex p.2))
    let objects := kvs.filter (fun p =>
      match p.2 with | .obj _ => true | _ => false)
    let arraysK := kvs.filter (fun p =>
      match p.2 with | .arr _ => true | _ => false)
    let st := if scalars.length > 0 then
        renderScalarsSection hPage wPage scalars st
      else st
    let st := objects.foldl (fun st p => renderObjectSection hPage p st) st
    arraysK.foldlM (fun st p =>
      match p.2 with
      | .arr xs => renderArraySectionPdf hPage wPage (some p.1) xs st
      | _ => pure st) st
  | _ => pure st

/-- `renderStructuredPdf` (ConvertToPdf.node.ts:1448-1765): timestamp
header, Git-report detection (throwing on a `null` first element), then
the matching branch.  `nowStr` and `fmtDate` model the host clock and
locale date formatting. -/
def renderStructuredPdf (hPage wPage : ℚ) (nowStr : String)
    (fmtDate : Json → String) (data : Json) (opts : RenderOptions) :
    Except String PdfState := do
  let st := initPdfState hPage
  let st := drawTextOp ("Erstellt: " ++ nowStr) 50 st.y 8 false st
  let st := subY 25 st
  let isGit ←
    (match data with
     | .arr (d0 :: _) => do
       let r ← jsGetE d0 "repository"
       if jsTruthyO r then do
         let c ← jsGetE d0 "commits"
         pure (jsTruthyO c)
       else pure false
     | _ => pure false)
  if isGit then renderGitReport hPage wPage fmtDate data opts st
  else renderGenericStructured hPage wPage data opts st

/-- The structured branch of `renderTextPdfFallback`
(ConvertToPdf.node.ts:1374-1377): the parsed tree is field-filtered and
rendered structurally; the emitted draw operations are returned. -/
def renderStructuredEntry (hPage wPage : ℚ) (nowStr : String)
    (fmtDate : Json → String) (parsed : Json) (opts : RenderOptions) :
    Except String (List DrawOp) :=
  (renderStructuredPdf hPage wPage nowStr fmtDate
    (filterDataFields parsed opts) opts).map (fun st => st.ops)

end ToPdf


namespace ToPdf

/-! ## Claim theorems -/

/-- C1: the claim says the structured rendering path never throws for any
payload classified as structured, including arrays whose later rows are
null.  The code contradicts it: for the structured payload
`[\x7b"a":1\x7d,null]` the generic table path reads `row[colKeys[i]]` on the
`null` second row (ConvertToPdf.node.ts:1748) and a `TypeError` escapes
`renderTextPdfFallback` — the evaluation below ends in the thrown error
instead of PDF bytes.  (The page geometry arguments only position draw
operations and cannot affect the throw.) -/
theorem c1_structured_render_throws_on_null_row :
    renderStructuredEntry 842 595 "" (fun _ => "")
      (Json.arr [Json.obj [("a", Json.num 1)], Json.null])
      { excludeFields := [], includeFields := [], pdfTitle := "" } =
    Except.error "TypeError: cannot read properties of null, reading a" := by
  rfl

/-- C3: the claim says that in every rendering path, including the
plain-text fallback, a unit's draw calls land on the page that is current
when its drawing begins.  In the fallback loop
(ConvertToPdf.node.ts:1390-1398) a new page is created and `y` reset, but
the draw call still targets the `const page` binding of the first page:
rendering 60 one-word lines on a height-842 page creates a second page,
yet every draw operation lands on page 0 — including the ones emitted
while the current page is the second one. -/
theorem c3_fallback_page_break_draws_on_stale_page :
    (fallbackDrawLoop 842 (List.replicate 60 "w")).pagesCreated = 2 ∧
    ((fallbackDrawLoop 842 (List.replicate 60 "w")).ops.all
      (fun p => p.2.page == 0)) = true ∧
    ((fallbackDrawLoop 842 (List.replicate 60 "w")).ops.any
      (fun p => p.1 == 2 && p.2.page == 0)) = true := by
  norm_num [fallbackDrawLoop, List.replicate, List.foldl, List.all, List.any,
    DrawOp.page, pageMargin]

/-- C5 counterexample: with 56 columns on the A4 content width the
computed cell budget is `Math.floor((495.28 / 56) / 4.5) = 1`; a
three-character value exceeds the budget, yet its rendered text is the
bare ellipsis `..` of length 2, not of length `maxChars = 1` — the
truncation law fails when the budget drops below 2.  (This arises for a
first row carrying 56 simple-valued keys.) -/
theorem c5_truncation_budget_one_counterexample :
    cellCharBudget ((a4Width - 2 * pageMargin) / 56) = 1 ∧
    truncateToBudget "abc" (cellCharBudget ((a4Width - 2 * pageMargin) / 56)) = ".." ∧
    (("abc".length : Int) > 1) ∧ ¬ (((".." : String).length : Int) = 1) := by
  have hb : cellCharBudget ((a4Width - 2 * pageMargin) / 56) = 1 := by
    norm_num [cellCharBudget, a4Width, pageMargin]
  refine ⟨hb, ?_, by decide, by decide⟩
  rw [hb]
  decide

/-- C2 counterexample: the claim says markup is chosen exactly when the
trimmed string starts with `<` and ends with `>`, and that a string
starting with a brace is structured only when JSON parsing succeeds.
The code disagrees twice: `"<br"` (no closing `>`) routes to markup, and
a brace-led string routes to structured without consulting the parser —
`classifySpecC2` (the claim, with the parser abstracted) yields plain
text on both under any parser verdict, while the code yields markup and
structured.  (`"\x7b oops"` is not valid JSON, so the `false` oracle is
the real parser's verdict on it.) -/
theorem c2_routing_counterexample :
    classifyContent "<br" = Route.markup ∧
    classifySpecC2 "<br" (fun _ => false) = Route.plain ∧
    classifySpecC2 "<br" (fun _ => true) = Route.plain ∧
    classifyContent "\x7b oops" = Route.structured ∧
    classifySpecC2 "\x7b oops" (fun _ => false) = Route.plain := by
  decide

end ToPdf

namespace ToPdf

/-- C2 amended: the dispatcher routes to the structured path exactly when
the trimmed string starts with a brace or a bracket — regardless of the
JSON parser's verdict (a failed parse degrades later, inside the
structured renderer) — and otherwise to markup exactly when the
lower-cased trimmed string starts with `<` or contains one of the four
tag markers; otherwise to plain text. -/
theorem c2_routing_amended (s : String) :
    (classifyContent s = Route.structured ↔
      (strStartsWith (jsTrim s) "\x7b" || strStartsWith (jsTrim s) "[") = true) ∧
    (classifyContent s = Route.markup ↔
      ((strStartsWith (jsTrim s) "\x7b" || strStartsWith (jsTrim s) "[") = false ∧
       (strStartsWith (strToLower (jsTrim s)) "<" ||
        stringIncludes (strToLower (jsTrim s)) "<html" ||
        stringIncludes (strToLower (jsTrim s)) "<body" ||
        stringIncludes (strToLower (jsTrim s)) "<div" ||
        stringIncludes (strToLower (jsTrim s)) "<table") = true)) ∧
    (classifyContent s = Route.plain ↔
      ((strStartsWith (jsTrim s) "\x7b" || strStartsWith (jsTrim s) "[") = false ∧
       (strStartsWith (strToLower (jsTrim s)) "<" ||
        stringIncludes (strToLower (jsTrim s)) "<html" ||
        stringIncludes (strToLower (jsTrim s)) "<body" ||
        stringIncludes (strToLower (jsTrim s)) "<div" ||
        stringIncludes (strToLower (jsTrim s)) "<table") = false)) := by
  simp only [classifyContent]
  by_cases h1 : (strStartsWith (jsTrim s) "\x7b" || strStartsWith (jsTrim s) "[") = true
  · simp [h1]
  · by_cases h2 : (strStartsWith (strToLower (jsTrim s)) "<" ||
        stringIncludes (strToLower (jsTrim s)) "<html" ||
        stringIncludes (strToLower (jsTrim s)) "<body" ||
        stringIncludes (strToLower (jsTrim s)) "<div" ||
        stringIncludes (strToLower (jsTrim s)) "<table") = true
    · simp [h1, h2]
    · simp [h1, h2]

/-- C5 amended: the truncation law as claimed, restricted to budgets of
at least two characters (the counterexample shows it fails below that):
an over-long string renders with length exactly `maxChars`, as its first
`maxChars - 2` characters followed by the two-character ellipsis. -/
theorem c5_truncation_amended (s : String) (m : Int) (h2 : 2 ≤ m)
    (hl : (s.length : Int) > m) :
    ((truncateToBudget s m).length : Int) = m ∧
    (truncateToBudget s m).data =
      s.data.take (m - 2).toNat ++ [Char.ofNat 46, Char.ofNat 46] := by
  rw [truncateToBudget, if_pos hl]
  have hdata : (jsSubstringTo s (m - 2) ++ "..").data =
      s.data.take (m - 2).toNat ++ [Char.ofNat 46, Char.ofNat 46] := by
    rw [String.data_append]
    rfl
  have hlend : ∀ t : String, t.length = t.data.length := fun t => rfl
  refine ⟨?_, hdata⟩
  rw [hlend, hdata, List.length_append, List.length_take]
  have hle : (m - 2).toNat ≤ s.data.length := by
    have hsl : s.length = s.data.length := rfl
    omega
  have h46 : ([Char.ofNat 46, Char.ofNat 46] : List Char).length = 2 := rfl
  rw [h46]
  push_cast
  omega

/-- C5 amended witness at a concrete over-long string and budget 4. -/
theorem c5_truncation_amended_witness :
    ((truncateToBudget "abcdef" 4).length : Int) = 4 ∧
    (truncateToBudget "abcdef" 4).data =
      "abcdef".data.take ((4 : Int) - 2).toNat ++ [Char.ofNat 46, Char.ofNat 46] :=
  c5_truncation_amended "abcdef" 4 (by decide) (by decide)

/-- `filterList` is an element-wise map of `filterObject`. -/
theorem filterList_eq_map (opts : RenderOptions) :
    ∀ xs : List Json, filterList opts xs = xs.map (filterObject opts)
  | [] => rfl
  | x :: xs => by simp [filterList, filterList_eq_map opts xs]

/-- C10: the field filter maps every sequence node element-wise — same
length, same order, elements filtered recursively — and returns scalar
leaves unchanged; include/exclude options can only remove mapping keys,
never sequence elements. -/
theorem c10_filter_preserves_sequences (opts : RenderOptions) (xs : List Json) :
    (filterDataFields (Json.arr xs) opts = Json.arr (filterList opts xs) ∧
     (filterList opts xs).length = xs.length ∧
     ∀ i, (filterList opts xs).get? i = (xs.get? i).map (filterObject opts)) ∧
    ∀ j, jsonIsScalar j = true → filterDataFields j opts = j := by
  refine ⟨⟨rfl, ?_, ?_⟩, ?_⟩
  · simp [filterList_eq_map]
  · intro i
    simp [filterList_eq_map]
  · intro j hj
    cases j <;> simp_all [jsonIsScalar, filterDataFields, filterObject]

/-- C10 witness: a scalar leaf passes through the filter unchanged. -/
theorem c10_witness :
    filterDataFields (Json.str "x") ⟨["x"], [], ""⟩ = Json.str "x" :=
  (c10_filter_preserves_sequences ⟨["x"], [], ""⟩ []).2 (Json.str "x") rfl

/-- Looking up a field just assigned by `jsSetField` yields the assigned
value. -/
theorem lookup_jsSetField_self (obj : List (String × Json)) (k : String)
    (v : Json) : lookupField (jsSetField obj k v) k = some v := by
  unfold jsSetField
  by_cases h : obj.any (fun p => p.1 = k) = true
  · simp only [h, if_true]
    induction obj with
    | nil => simp at h
    | cons p ps ih =>
      by_cases hp : p.1 = k
      · simp [lookupField, List.find?, hp]
      · have hps : ps.any (fun q => q.1 = k) = true := by
          simp only [List.any_cons, Bool.or_eq_true, decide_eq_true_eq] at h
          rcases h with h | h
          · exact absurd h hp
          · exact h
        have := ih hps
        simpa [lookupField, List.find?, hp] using this
  · simp only [h, if_false]
    induction obj with
    | nil => simp [lookupField, List.find?]
    | cons p ps ih =>
      have hp : ¬ (p.1 = k) := by
        intro hk
        apply h
        simp [List.any_cons, hk]
      have hps : ¬ (ps.any (fun q => q.1 = k) = true) := by
        intro hk
        apply h
        simp [List.any_cons, hk]
      simpa [lookupField, List.find?, hp] using ih hps

/-- C9: when the upload collaborator fails for an item with output type
`url` or `both`, the emitted record carries `pdfUrlError` with the
human-readable message, the binary attachment is still present exactly
for `both`, and the batch loop emits one output per input item — upload
failure never drops an item. -/
theorem c9_upload_failure_annotates (itemJson : List (String × Json))
    (fn msg : String) (ot : OutputType)
    (hot : ot = OutputType.url ∨ ot = OutputType.both) :
    lookupField (buildItemOutput itemJson fn ot (Except.error msg)).json
      "pdfUrlError" = some (Json.str ("Failed to upload PDF: " ++ msg)) ∧
    (buildItemOutput itemJson fn ot (Except.error msg)).binaryPdf =
      (if ot = OutputType.both then some fn else none) ∧
    ∀ items, (executeOutputLoop items).length = items.length := by
  have hlen : ∀ items, (executeOutputLoop items).length = items.length := by
    intro items
    simp [executeOutputLoop]
  rcases hot with rfl | rfl
  · exact ⟨by simp [buildItemOutput, lookup_jsSetField_self], by simp [buildItemOutput], hlen⟩
  · exact ⟨by simp [buildItemOutput, lookup_jsSetField_self], by simp [buildItemOutput], hlen⟩

/-- C9 witness at a concrete item with output type `both` and a failing
upload. -/
theorem c9_witness :
    lookupField (buildItemOutput [("x", Json.num 1)] "out.pdf" OutputType.both
      (Except.error "boom")).json "pdfUrlError" =
      some (Json.str ("Failed to upload PDF: " ++ "boom")) ∧
    (buildItemOutput [("x", Json.num 1)] "out.pdf" OutputType.both
      (Except.error "boom")).binaryPdf =
      (if OutputType.both = OutputType.both then some "out.pdf" else none) ∧
    ∀ items, (executeOutputLoop items).length = items.length :=
  c9_upload_failure_annotates [("x", Json.num 1)] "out.pdf" "boom"
    OutputType.both (Or.inr rfl)

end ToPdf

namespace ToPdf

/-- Membership in `addNewKeys`: the accumulator's keys plus the added
ones. -/
theorem mem_addNewKeys : ∀ (ks acc : List String) (k : String),
    k ∈ addNewKeys acc ks ↔ k ∈ acc ∨ k ∈ ks := by
  intro ks
  induction ks with
  | nil => intro acc k; simp [addNewKeys]
  | cons a ks ih =>
    intro acc k
    have hstep : addNewKeys acc (a :: ks) =
        addNewKeys (if a ∈ acc then acc else acc ++ [a]) ks := rfl
    rw [hstep, ih]
    by_cases ha : a ∈ acc
    · rw [if_pos ha]
      simp only [List.mem_cons]
      constructor
      · intro h; tauto
      · rintro (h | rfl | h) <;> tauto
    · rw [if_neg ha]
      simp only [List.mem_append, List.mem_singleton, List.mem_cons]
      tauto

/-- Membership after the union fold of `renderArrayAsHtml`. -/
theorem mem_colKeysUnion_fold : ∀ (rows : List Json) (acc : List String)
    (k : String),
    (k ∈ rows.foldl (fun acc cur =>
      if jsonIsComplex cur then addNewKeys acc (jsKeys cur) else acc) acc ↔
    k ∈ acc ∨ ∃ r ∈ rows, jsonIsComplex r = true ∧ k ∈ jsKeys r) := by
  intro rows
  induction rows with
  | nil => intro acc k; simp
  | cons r rows ih =>
    intro acc k
    simp only [List.foldl_cons]
    by_cases hr : jsonIsComplex r = true
    · rw [if_pos hr, ih, mem_addNewKeys]
      simp only [List.mem_cons]
      constructor
      · rintro ((h | h) | ⟨r2, hm, hc, hk⟩)
        · exact Or.inl h
        · exact Or.inr ⟨r, Or.inl rfl, hr, h⟩
        · exact Or.inr ⟨r2, Or.inr hm, hc, hk⟩
      · rintro (h | ⟨r2, (rfl | hm), hc, hk⟩)
        · exact Or.inl (Or.inl h)
        · exact Or.inl (Or.inr hk)
        · exact Or.inr ⟨r2, hm, hc, hk⟩
    · rw [if_neg hr, ih]
      simp only [List.mem_cons]
      constructor
      · rintro (h | ⟨r2, hm, hc, hk⟩)
        · exact Or.inl h
        · exact Or.inr ⟨r2, Or.inr hm, hc, hk⟩
      · rintro (h | ⟨r2, (rfl | hm), hc, hk⟩)
        · exact Or.inl h
        · exact absurd hc hr
        · exact Or.inr ⟨r2, hm, hc, hk⟩

/-- With pairwise-distinct keys, `find?` by a member's key returns that
member. -/
theorem find?_key_of_nodup : ∀ (kvs : List (String × Json))
    (p : String × Json), (kvs.map Prod.fst).Nodup → p ∈ kvs →
    kvs.find? (fun q => q.1 = p.1) = some p := by
  intro kvs
  induction kvs with
  | nil => intro p _ hp; cases hp
  | cons q tl ih =>
    intro p hnd hp
    simp only [List.map_cons, List.nodup_cons] at hnd
    rcases List.mem_cons.mp hp with rfl | hmem
    · simp [List.find?]
    · have hne : ¬ (q.1 = p.1) := by
        intro he
        exact hnd.1 (he ▸ List.mem_map_of_mem Prod.fst hmem)
      have := ih p hnd.2 hmem
      simpa [List.find?, hne] using this

/-- Key filtering against the whole object agrees with pair-wise
filtering when each listed pair is what the object lookup finds. -/
theorem filter_keys_helper : ∀ (kvs outer : List (String × Json)),
    (∀ p ∈ kvs, outer.find? (fun q => q.1 = p.1) = some p) →
    ((kvs.map Prod.fst).filter (fun k =>
      match jsGet (Json.obj outer) k with
      | some v => !jsonIsComplex v
      | none => true)) =
    (kvs.filter (fun p => !(jsonIsComplex p.2))).map Prod.fst := by
  intro kvs
  induction kvs with
  | nil => intro outer _; rfl
  | cons p tl ih =>
    intro outer hfind
    have hp : jsGet (Json.obj outer) p.1 = some p.2 := by
      simp [jsGet, hfind p (List.mem_cons_self p tl)]
    simp only [List.map_cons, List.filter_cons, hp]
    rw [ih outer (fun q hq => hfind q (List.mem_cons_of_mem p hq))]
    by_cases hc : jsonIsComplex p.2 = true <;> simp [hc]

/-- C4: in the generic structured path the column set of a table is
exactly the keys of the first row whose first-row value is simple, in the
row's key order (`colKeysGeneric`, used by `renderArraySectionPdf`),
while the HTML list-rendering path (`renderArrayAsHtml`) derives the
union of keys across all complex rows (`colKeysHtmlUnion`); the two
derivations disagree on rows with differing keys. -/
theorem c4_column_derivation_asymmetry (rows : List Json) (k : String) :
    (k ∈ colKeysHtmlUnion rows ↔
      ∃ r ∈ rows, jsonIsComplex r = true ∧ k ∈ jsKeys r) ∧
    (∀ (kvs : List (String × Json)) (rest : List Json),
      rows = Json.obj kvs :: rest → (kvs.map Prod.fst).Nodup →
      colKeysGeneric rows =
        (kvs.filter (fun p => !(jsonIsComplex p.2))).map Prod.fst) ∧
    colKeysGeneric [Json.obj [("a", Json.num 1)], Json.obj [("b", Json.num 2)]] ≠
      colKeysHtmlUnion [Json.obj [("a", Json.num 1)], Json.obj [("b", Json.num 2)]] := by
  refine ⟨?_, ?_, by decide⟩
  · rw [colKeysHtmlUnion, mem_colKeysUnion_fold]
    simp
  · rintro kvs rest rfl hnd
    have hfind : ∀ p ∈ kvs, kvs.find? (fun q => q.1 = p.1) = some p :=
      fun p hp => find?_key_of_nodup kvs p hnd hp
    have hmain := filter_keys_helper kvs kvs hfind
    simpa [colKeysGeneric, jsonIsComplex, jsKeys] using hmain

/-- C4 witness: first-row derivation on a two-row array whose first row
has one simple and one complex value. -/
theorem c4_witness :
    colKeysGeneric [Json.obj [("a", Json.num 1), ("b", Json.obj [])],
      Json.obj [("c", Json.num 2)]] =
    ([(("a" : String), Json.num 1), ("b", Json.obj [])].filter
      (fun p => !(jsonIsComplex p.2))).map Prod.fst :=
  (c4_column_derivation_asymmetry
    [Json.obj [("a", Json.num 1), ("b", Json.obj [])], Json.obj [("c", Json.num 2)]]
    "a").2.1 [("a", Json.num 1), ("b", Json.obj [])] [Json.obj [("c", Json.num 2)]]
    rfl (by decide)

end ToPdf

namespace ToPdf

mutual

/-- True when the key appears at some mapping level of the tree. -/
def keyInTree (k : String) : Json → Bool
  | .obj kvs => keyInKVs k kvs
  | .arr xs => keyInList k xs
  | _ => false

/-- Key occurrence inside any element of a sequence. -/
def keyInList (k : String) : List Json → Bool
  | [] => false
  | x :: xs => keyInTree k x || keyInList k xs

/-- Key occurrence inside an object entry list: the key itself or a
nested occurrence. -/
def keyInKVs (k : String) : List (String × Json) → Bool
  | [] => false
  | (k0, v) :: kvs => k0 = k || keyInTree k v || keyInKVs k kvs

end

mutual

/-- Any key present anywhere in a filtered tree passes the acceptance
predicate. -/
theorem keyInTree_filterObject {opts : RenderOptions} {k : String} :
    ∀ j, keyInTree k (filterObject opts j) = true →
      shouldIncludeField opts k = true
  | .null, h => by simp [filterObject, keyInTree] at h
  | .bool b, h => by simp [filterObject, keyInTree] at h
  | .num n, h => by simp [filterObject, keyInTree] at h
  | .str s, h => by simp [filterObject, keyInTree] at h
  | .arr xs, h =>
    keyInList_filterList xs (by simpa [filterObject, keyInTree] using h)
  | .obj kvs, h =>
    keyInKVs_filterKVs kvs (by simpa [filterObject, keyInTree] using h)

/-- Any key present in a filtered sequence's elements passes the
acceptance predicate. -/
theorem keyInList_filterList {opts : RenderOptions} {k : String} :
    ∀ xs, keyInList k (filterList opts xs) = true →
      shouldIncludeField opts k = true
  | [], h => by simp [filterList, keyInList] at h
  | x :: xs, h => by
    simp only [filterList, keyInList, Bool.or_eq_true] at h
    rcases h with h | h
    · exact keyInTree_filterObject x h
    · exact keyInList_filterList xs h

/-- Any key present in a filtered entry list passes the acceptance
predicate. -/
theorem keyInKVs_filterKVs {opts : RenderOptions} {k : String} :
    ∀ kvs, keyInKVs k (filterKVs opts kvs) = true →
      shouldIncludeField opts k = true
  | [], h => by simp [filterKVs, keyInKVs] at h
  | (k0, v) :: kvs, h => by
    by_cases hin : shouldIncludeField opts k0 = true
    · rw [filterKVs, if_pos hin] at h
      simp only [keyInKVs, Bool.or_eq_true, decide_eq_true_eq] at h
      rcases h with (h | h) | h
      · exact h ▸ hin
      · exact keyInTree_filterObject v h
      · exact keyInKVs_filterKVs kvs h
    · rw [filterKVs, if_neg hin] at h
      exact keyInKVs_filterKVs kvs h

end

/-- At one mapping level, a key survives the filter exactly when it was
present and accepted. -/
theorem filterKVs_keys_iff (opts : RenderOptions) (k : String) :
    ∀ kvs : List (String × Json),
    (k ∈ (filterKVs opts kvs).map Prod.fst ↔
      (k ∈ kvs.map Prod.fst ∧ shouldIncludeField opts k = true)) := by
  intro kvs
  induction kvs with
  | nil => simp [filterKVs]
  | cons p tl ih =>
    rcases p with ⟨k0, v⟩
    by_cases hin : shouldIncludeField opts k0 = true
    · rw [filterKVs, if_pos hin]
      simp only [List.map_cons, List.mem_cons, ih]
      constructor
      · rintro (rfl | ⟨hm, hacc⟩)
        · exact ⟨Or.inl rfl, hin⟩
        · exact ⟨Or.inr hm, hacc⟩
      · rintro ⟨rfl | hm, hacc⟩
        · exact Or.inl rfl
        · exact Or.inr ⟨hm, hacc⟩
    · rw [filterKVs, if_neg hin]
      simp only [List.map_cons, List.mem_cons, ih]
      constructor
      · rintro ⟨hm, hacc⟩
        exact ⟨Or.inr hm, hacc⟩
      · rintro ⟨rfl | hm, hacc⟩
        · exact absurd hacc hin
        · exact ⟨hm, hacc⟩

/-- C6: at every mapping level a key is retained by the field filter iff
it was present and passes `shouldIncludeField` (include-list membership
when the include list is non-empty, exclude-list absence otherwise), and
consequently no key outside the acceptance set appears anywhere in the
filtered tree. -/
theorem c6_field_filter_characterization (opts : RenderOptions) (k : String) :
    (∀ j, keyInTree k (filterDataFields j opts) = true →
      shouldIncludeField opts k = true) ∧
    (∀ kvs : List (String × Json),
      k ∈ (filterKVs opts kvs).map Prod.fst ↔
        (k ∈ kvs.map Prod.fst ∧ shouldIncludeField opts k = true)) :=
  ⟨fun j => keyInTree_filterObject j, fun kvs => filterKVs_keys_iff opts k kvs⟩

/-- C6 witness: a retained key of a concrete filtered tree passes the
predicate. -/
theorem c6_witness :
    shouldIncludeField { excludeFields := ["secret"], includeFields := [], pdfTitle := "" } "name" = true :=
  (c6_field_filter_characterization
    { excludeFields := ["secret"], includeFields := [], pdfTitle := "" } "name").1
    (Json.obj [("name", Json.str "x"), ("secret", Json.num 1)]) (by decide)

end ToPdf

namespace ToPdf

/-! ### Sanitizer idempotence (claim C7) -/

/-- A character-wise pass fixing every member of a list leaves it
unchanged. -/
theorem flatMap_id_of {f : Char → List Char} :
    ∀ m : List Char, (∀ c ∈ m, f c = [c]) → m.flatMap f = m := by
  intro m h
  induction m with
  | nil => rfl
  | cons c t ih =>
    simp only [List.flatMap_cons]
    rw [h c (List.mem_cons_self c t), ih (fun d hd => h d (List.mem_cons_of_mem c hd))]
    rfl

/-- Every character of the sanitizer body's output is in the Latin-1
range and is not the non-breaking space (already replaced by a plain
space). -/
theorem sanitizeBody_mem_latin1 {l : List Char} {d : Char}
    (hd : d ∈ sanitizeBody l) : d.toNat ≤ 0xFF ∧ d.toNat ≠ 0xA0 := by
  unfold sanitizeBody at hd
  rcases List.mem_flatMap.mp hd with ⟨c, hc, hdc⟩
  unfold keepLatin1 at hdc
  by_cases hle : c.toNat ≤ 0xFF
  · rw [if_pos hle] at hdc
    rcases List.mem_singleton.mp hdc with rfl
    refine ⟨hle, ?_⟩
    rcases List.mem_flatMap.mp hc with ⟨e, _, hce⟩
    unfold charMapPass at hce
    by_cases hmem : e ∈ [Char.ofNat 0xA0]
    · rw [if_pos hmem] at hce
      rcases List.mem_singleton.mp hce with rfl
      decide
    · rw [if_neg hmem] at hce
      rcases List.mem_singleton.mp hce with rfl
      intro hna
      apply hmem
      have hde : d = Char.ofNat 0xA0 := by
        have h2 := Char.ofNat_toNat d
        rw [hna] at h2
        exact h2.symm
      simp [hde]
  · rw [if_neg hle] at hdc
    cases hdc

/-- The sanitizer body fixes any list of Latin-1, non-NBSP characters:
every pass leaves each such character untouched. -/
theorem sanitizeBody_id_of_latin1 {m : List Char}
    (h : ∀ d ∈ m, d.toNat ≤ 0xFF ∧ d.toNat ≠ 0xA0) : sanitizeBody m = m := by
  have hr : ∀ (lo hi : Nat), 0xFF < lo → ∀ c ∈ m,
      rangeRemovePass lo hi c = [c] := by
    intro lo hi hlo c hc
    have h1 := (h c hc).1
    unfold rangeRemovePass
    rw [if_neg]
    simp only [Bool.and_eq_true, decide_eq_true_eq, not_and]
    intro hcontra
    omega
  have hq : ∀ (cs out : List Char), (∀ e ∈ cs, 0xFF < e.toNat) → ∀ c ∈ m,
      charMapPass cs out c = [c] := by
    intro cs out hcs c hc
    have h1 := (h c hc).1
    unfold charMapPass
    rw [if_neg]
    intro hmem
    have := hcs c hmem
    omega
  have hn : ∀ c ∈ m, charMapPass [Char.ofNat 0xA0] [Char.ofNat 0x20] c = [c] := by
    intro c hc
    have h2 := (h c hc).2
    unfold charMapPass
    rw [if_neg]
    intro hmem
    rcases List.mem_singleton.mp hmem with rfl
    exact h2 (by decide)
  have hk : ∀ c ∈ m, keepLatin1 c = [c] := by
    intro c hc
    unfold keepLatin1
    rw [if_pos (h c hc).1]
  unfold sanitizeBody
  rw [flatMap_id_of m (hr 0x1F300 0x1F9FF (by norm_num)),
    flatMap_id_of m (hr 0x2600 0x26FF (by norm_num)),
    flatMap_id_of m (hr 0x2700 0x27BF (by norm_num)),
    flatMap_id_of m (hr 0xFE00 0xFE0F (by norm_num)),
    flatMap_id_of m (hr 0x1F000 0x1FFFF (by norm_num)),
    flatMap_id_of m (hq _ _ (by decide)),
    flatMap_id_of m (hq _ _ (by decide)),
    flatMap_id_of m (hq _ _ (by decide)),
    flatMap_id_of m (hq _ _ (by decide)),
    flatMap_id_of m (hq _ _ (by decide)),
    flatMap_id_of m hn,
    flatMap_id_of m hk]

/-- Members survive a JavaScript trim. -/
theorem mem_of_mem_jsTrimList {l : List Char} {c : Char}
    (h : c ∈ jsTrimList l) : c ∈ l := by
  unfold jsTrimList at h
  have h1 := (@List.dropWhile_suffix Char
    (l.dropWhile jsWhitespace).reverse jsWhitespace).subset (List.mem_reverse.mp h)
  exact (List.dropWhile_suffix jsWhitespace).subset (List.mem_reverse.mp h1)

/-- Dropping a satisfied prefix twice is the same as doing it once. -/
theorem dropWhile_dropWhile_same (p : Char → Bool) (l : List Char) :
    (l.dropWhile p).dropWhile p = l.dropWhile p := by
  induction l with
  | nil => rfl
  | cons c t ih =>
    by_cases hp : p c = true
    · simp [List.dropWhile_cons, hp, ih]
    · simp [List.dropWhile_cons, hp]

/-- The head of a non-trivial `dropWhile` result fails the predicate. -/
theorem dropWhile_head_false {p : Char → Bool} :
    ∀ {m : List Char} {c : Char} {t : List Char},
      m.dropWhile p = c :: t → p c = false := by
  intro m
  induction m with
  | nil => intro c t h; cases h
  | cons a r ih =>
    intro c t h
    rw [List.dropWhile_cons] at h
    by_cases hpa : p a = true
    · rw [if_pos hpa] at h
      exact ih h
    · rw [if_neg hpa] at h
      have hac : a = c := by
        have := congrArg (fun x => x.head?) h
        simpa using this
      rw [← hac]
      simpa using hpa

/-- A JavaScript trim is idempotent. -/
theorem jsTrimList_idem (l : List Char) :
    jsTrimList (jsTrimList l) = jsTrimList l := by
  unfold jsTrimList
  generalize hA : l.dropWhile jsWhitespace = A
  obtain ⟨u, hu⟩ : ∃ u, (A.reverse.dropWhile jsWhitespace).reverse ++ u = A := by
    rcases @List.dropWhile_suffix Char A.reverse jsWhitespace with ⟨u, hu⟩
    exact ⟨u.reverse, by simpa using congrArg List.reverse hu⟩
  have h1 : ((A.reverse.dropWhile jsWhitespace).reverse).dropWhile jsWhitespace =
      (A.reverse.dropWhile jsWhitespace).reverse := by
    cases hTc : (A.reverse.dropWhile jsWhitespace).reverse with
    | nil => rfl
    | cons c t =>
      have hAeq : A = c :: (t ++ u) := by
        rw [← hu, hTc]
        simp
      have hlc : l.dropWhile jsWhitespace = c :: (t ++ u) := by
        rw [hA]
        exact hAeq
      have hpc : jsWhitespace c = false := dropWhile_head_false hlc
      rw [List.dropWhile_cons, if_neg (by simp [hpc])]
  rw [h1]
  have h2 : ((A.reverse.dropWhile jsWhitespace).reverse).reverse.dropWhile
      jsWhitespace = A.reverse.dropWhile jsWhitespace := by
    rw [List.reverse_reverse]
    exact dropWhile_dropWhile_same jsWhitespace A.reverse
  rw [h2]

/-- Data of a constructed string. -/
theorem mk_data (cs : List Char) : (String.mk cs).data = cs := rfl

/-- C7 amended: the sanitizer is idempotent, and every character of its
output lies in the Latin-1 range `\x00`-`\xFF` (the counterexample shows
the stronger claim — output within the WinAnsi-representable set — fails
for the C1 control characters the filter keeps). -/
theorem c7_sanitizer_amended (s : String) :
    sanitizeForPdf (sanitizeForPdf s) = sanitizeForPdf s ∧
    ∀ c, c ∈ (sanitizeForPdf s).data → c.toNat ≤ 0xFF := by
  constructor
  · by_cases hs : s = ""
    · subst hs; rfl
    · have e1 : sanitizeForPdf s = String.mk (jsTrimList (sanitizeBody s.data)) := by
        rw [sanitizeForPdf, if_neg hs]
      rw [e1]
      by_cases hT : String.mk (jsTrimList (sanitizeBody s.data)) = ""
      · rw [hT]
        rfl
      · have e2 : sanitizeForPdf (String.mk (jsTrimList (sanitizeBody s.data))) =
            String.mk (jsTrimList (sanitizeBody (jsTrimList (sanitizeBody s.data)))) := by
          rw [sanitizeForPdf, if_neg hT]
        have hfix : sanitizeBody (jsTrimList (sanitizeBody s.data)) =
            jsTrimList (sanitizeBody s.data) :=
          sanitizeBody_id_of_latin1 (fun d hd =>
            sanitizeBody_mem_latin1 (mem_of_mem_jsTrimList hd))
        rw [e2, hfix, jsTrimList_idem]
  · intro c hc
    by_cases hs : s = ""
    · subst hs; cases hc
    · rw [sanitizeForPdf, if_neg hs, mk_data] at hc
      exact (sanitizeBody_mem_latin1 (mem_of_mem_jsTrimList hc)).1

/-- C7 amended witness at a concrete string containing a smart quote. -/
theorem c7_witness :
    sanitizeForPdf (sanitizeForPdf "ab") = sanitizeForPdf "ab" ∧
    (Char.ofNat 97).toNat ≤ 0xFF :=
  ⟨(c7_sanitizer_amended "ab").1,
    (c7_sanitizer_amended "ab").2 (Char.ofNat 97) (by decide)⟩

/-- Modelled from the spec: the target font encoding is WinAnsi
(Windows-1252, per the source comment at ConvertToPdf.node.ts:1770-1771).
Its representable Unicode codepoints are ASCII, `\xA0`-`\xFF`, and the 27
codepoints mapped from bytes `\x80`-`\x9F`; the five undefined bytes and
the C1 control codepoints `\x80`-`\x9F` are not representable. -/
def winAnsiRepresentable (c : Char) : Bool :=
  c.toNat ≤ 0x7F || (0xA0 ≤ c.toNat && c.toNat ≤ 0xFF) ||
  c.toNat ∈ [0x20AC, 0x201A, 0x192, 0x201E, 0x2026, 0x2020, 0x2021, 0x2C6,
    0x2030, 0x160, 0x2039, 0x152, 0x17D, 0x2018, 0x2019, 0x201C, 0x201D,
    0x2022, 0x2013, 0x2014, 0x2DC, 0x2122, 0x161, 0x203A, 0x153, 0x17E, 0x178]

/-- C7 counterexample: the sanitizer keeps the C1 control character
`\x91` (it is within `\x00`-`\xFF`, so the final filter retains it), yet
that codepoint is outside the WinAnsi-representable range — the claim
that the output contains no character outside the target encoding's
representable range is false. -/
theorem c7_unencodable_survives_counterexample :
    sanitizeForPdf (String.mk [Char.ofNat 97, Char.ofNat 0x91, Char.ofNat 98]) =
      String.mk [Char.ofNat 97, Char.ofNat 0x91, Char.ofNat 98] ∧
    Char.ofNat 0x91 ∈ (sanitizeForPdf (String.mk
      [Char.ofNat 97, Char.ofNat 0x91, Char.ofNat 98])).data ∧
    winAnsiRepresentable (Char.ofNat 0x91) = false := by
  refine ⟨by decide, by decide, by decide⟩

end ToPdf

namespace ToPdf

/-! ### Template dotted-path substitution (claim C8) -/

/-- The seven characters of the placeholder opener. -/
def dataOpenChars : List Char :=
  [Char.ofNat 0x7B, Char.ofNat 0x7B, Char.ofNat 100, Char.ofNat 97,
    Char.ofNat 116, Char.ofNat 97, Char.ofNat 0x2E]

/-- The opener literal parses as itself. -/
theorem matchDataOpen_lit (r : List Char) :
    matchDataOpen (dataOpenChars ++ r) = some r := rfl

/-- Character data of the opener literal. -/
theorem dataOpen_data : ("\x7b\x7bdata." : String).data = dataOpenChars := by
  decide

/-- No placeholder can start at a character other than an opening
brace. -/
theorem matchDataOpen_head_ne {c : Char} {t : List Char}
    (h : ¬ c = Char.ofNat 0x7B) : matchDataOpen (c :: t) = none := by
  unfold matchDataOpen
  split
  next c1 c2 c3 c4 c5 c6 c7 rest heq =>
    injection heq with h1 h2
    rw [if_neg]
    simp only [Bool.and_eq_true, decide_eq_true_eq, not_and]
    intro hcond
    exact absurd (show c = Char.ofNat 0x7B by rw [h1]; exact hcond.1.1.1.1.1) h
  next => rfl

/-- `takeWhile`/`dropWhile` split at the first failing character after a
satisfied chunk. -/
theorem takeWhile_append_stop {q : Char → Bool} :
    ∀ (a : List Char) (b : Char) (t : List Char),
    (∀ c ∈ a, q c = true) → q b = false →
    ((a ++ b :: t).takeWhile q = a ∧ (a ++ b :: t).dropWhile q = b :: t) := by
  intro a
  induction a with
  | nil =>
    intro b t _ hb
    constructor
    · rw [List.nil_append, List.takeWhile_cons, if_neg (by simp [hb])]
    · rw [List.nil_append, List.dropWhile_cons, if_neg (by simp [hb])]
  | cons c a ih =>
    intro b t ha hb
    have hc : q c = true := ha c (List.mem_cons_self c a)
    have hrest := ih b t (fun d hd => ha d (List.mem_cons_of_mem c hd)) hb
    constructor
    · rw [List.cons_append, List.takeWhile_cons, if_pos (by simp [hc]), hrest.1]
    · rw [List.cons_append, List.dropWhile_cons, if_pos (by simp [hc]), hrest.2]

/-- One unfolding step of the placeholder scanner. -/
theorem substDataScan_step (data : Json) (c : Char) (rest : List Char) :
    substDataScan data (c :: rest) =
      match matchDataOpen (c :: rest) with
      | some afterOpen =>
        if (afterOpen.takeWhile isPathChar) ≠ [] &&
            closeBracesOk (afterOpen.dropWhile isPathChar) then
          (renderDataValue data (String.mk (afterOpen.takeWhile isPathChar))).data ++
            substDataScan data ((afterOpen.dropWhile isPathChar).drop 2)
        else c :: substDataScan data rest
      | none => c :: substDataScan data rest := by
  rw [substDataScan.eq_def]
  split
  next hm => simp at hm
  next c2 r2 heq =>
    injection heq with h1 h2
    subst h1
    subst h2
    split
    next afterOpen hm => rw [hm]
    next hm => rw [hm]

/-- A non-brace character passes through the scanner. -/
theorem substDataScan_step_ne (data : Json) {c : Char} (rest : List Char)
    (h : ¬ c = Char.ofNat 0x7B) :
    substDataScan data (c :: rest) = c :: substDataScan data rest := by
  rw [substDataScan_step, matchDataOpen_head_ne h]

/-- A well-formed placeholder at the head of the input is replaced by the
rendered value, with scanning continuing after it. -/
theorem substDataScan_open (data : Json) (pL postL : List Char)
    (hp1 : pL ≠ []) (hp2 : ∀ c ∈ pL, isPathChar c = true) :
    substDataScan data (dataOpenChars ++
        (pL ++ (Char.ofNat 0x7D :: Char.ofNat 0x7D :: postL))) =
      (renderDataValue data (String.mk pL)).data ++ substDataScan data postL := by
  have hsplit := takeWhile_append_stop pL (Char.ofNat 0x7D)
    (Char.ofNat 0x7D :: postL) hp2 (by decide)
  have hL : dataOpenChars ++ (pL ++ (Char.ofNat 0x7D :: Char.ofNat 0x7D :: postL)) =
      Char.ofNat 0x7B :: (Char.ofNat 0x7B :: Char.ofNat 100 :: Char.ofNat 97 ::
        Char.ofNat 116 :: Char.ofNat 97 :: Char.ofNat 0x2E ::
        (pL ++ (Char.ofNat 0x7D :: Char.ofNat 0x7D :: postL))) := rfl
  have hm := matchDataOpen_lit (pL ++ (Char.ofNat 0x7D :: Char.ofNat 0x7D :: postL))
  rw [hL] at hm
  rw [hL, substDataScan_step]
  split
  next afterOpen2 hm2 =>
    rw [hm] at hm2
    injection hm2 with h3
    subst h3
    rw [hsplit.1, hsplit.2, if_pos]
    · rfl
    · simp [hp1, closeBracesOk]
  next hm2 =>
    rw [hm] at hm2
    cases hm2

/-- One placeholder surrounded by a brace-free prefix and an arbitrary
suffix is replaced by the rendered value, with scanning continuing in
the suffix. -/
theorem substDataScan_concat (data : Json) :
    ∀ (preL : List Char), (∀ c ∈ preL, ¬ c = Char.ofNat 0x7B) →
    ∀ (pL postL : List Char), pL ≠ [] → (∀ c ∈ pL, isPathChar c = true) →
    substDataScan data (preL ++ (dataOpenChars ++
        (pL ++ (Char.ofNat 0x7D :: Char.ofNat 0x7D :: postL)))) =
      preL ++ ((renderDataValue data (String.mk pL)).data ++
        substDataScan data postL) := by
  intro preL
  induction preL with
  | nil =>
    intro _ pL postL hp1 hp2
    rw [List.nil_append, List.nil_append]
    exact substDataScan_open data pL postL hp1 hp2
  | cons c preL ih =>
    intro hpre pL postL hp1 hp2
    rw [List.cons_append, substDataScan_step_ne data _
      (hpre c (List.mem_cons_self c preL))]
    rw [ih (fun d hd => hpre d (List.mem_cons_of_mem c hd)) pL postL hp1 hp2]
    rfl

end ToPdf

namespace ToPdf

/-- Character data of the closer literal. -/
theorem dataClose_data : ("\x7d\x7d" : String).data =
    [Char.ofNat 0x7D, Char.ofNat 0x7D] := by
  decide

/-- C8: in the dotted-path pass of the template interpolator, a
placeholder `\x7b\x7bdata.path\x7d\x7d` (non-empty path over the pattern's
character class, preceded by brace-free text) is replaced by the value
resolved by walking the dot-separated path through the tree — escaped
scalars, table-rendered objects/arrays — and a path resolving to
`undefined` or `null` is replaced by the empty string, while scanning
continues in the rest of the template. -/
theorem c8_template_data_path (data : Json) (p pre post : String)
    (hp1 : p.data ≠ [])
    (hp2 : ∀ c ∈ p.data, isPathChar c = true)
    (hpre : ∀ c ∈ pre.data, ¬ c = Char.ofNat 0x7B) :
    processTemplateDataPass (pre ++ "\x7b\x7bdata." ++ p ++ "\x7d\x7d" ++ post) data =
      pre ++ renderDataValue data p ++ processTemplateDataPass post data ∧
    ((getNestedValue data p = none ∨ getNestedValue data p = some Json.null) →
      renderDataValue data p = "") := by
  constructor
  · apply String.ext
    have hmkp : String.mk p.data = p := rfl
    have hTd : (pre ++ "\x7b\x7bdata." ++ p ++ "\x7d\x7d" ++ post).data =
        pre.data ++ (dataOpenChars ++ (p.data ++
          (Char.ofNat 0x7D :: Char.ofNat 0x7D :: post.data))) := by
      simp only [String.data_append, dataOpen_data, dataClose_data,
        List.append_assoc, List.cons_append, List.nil_append]
      rfl
    rw [processTemplateDataPass, mk_data, hTd,
      substDataScan_concat data pre.data hpre p.data post.data hp1 hp2]
    simp only [String.data_append, processTemplateDataPass, mk_data, hmkp,
      List.append_assoc]
  · intro h
    rcases h with h | h <;> simp [renderDataValue, h]

/-- C8 witness at a concrete template, nested object, and two-segment
path. -/
theorem c8_witness :
    processTemplateDataPass ("Hello " ++ "\x7b\x7bdata." ++ "a.b" ++ "\x7d\x7d" ++ " end")
        (Json.obj [("a", Json.obj [("b", Json.num 7)])]) =
      "Hello " ++ renderDataValue (Json.obj [("a", Json.obj [("b", Json.num 7)])]) "a.b" ++
        processTemplateDataPass " end" (Json.obj [("a", Json.obj [("b", Json.num 7)])]) ∧
    ((getNestedValue (Json.obj [("a", Json.obj [("b", Json.num 7)])]) "a.b" = none ∨
      getNestedValue (Json.obj [("a", Json.obj [("b", Json.num 7)])]) "a.b" = some Json.null) →
      renderDataValue (Json.obj [("a", Json.obj [("b", Json.num 7)])]) "a.b" = "") :=
  c8_template_data_path (Json.obj [("a", Json.obj [("b", Json.num 7)])]) "a.b"
    "Hello " " end" (by decide) (by decide) (by decide)

end ToPdf
